import Mathlib

/-!
Verification of the glyph-atlas subsystem of the `try-wgpu` repository
(`src/text/mod.rs`, `src/text/mesh.rs`).

The font rasterizer (freetype) is an external collaborator: a face is
modelled as a function from character codes to rendered glyphs
(bitmap bytes plus metrics), mirroring the data the source reads from
`face.glyph()` / `glyph.bitmap()`.  Machine integers are modelled as
`Int`/`Nat` with explicit `% 2^32` / `% 2^64` at the points where the
source performs `u32`/`usize` casts or wrapping arithmetic.  Rust panics
(`unwrap`, slice OOB would be excluded by the well-formedness
hypotheses) are modelled with `Option.none`.
-/

namespace TryWgpu

set_option maxRecDepth 100000

/-! ### Machine-integer casts (Rust `as` semantics, release-mode wrapping) -/

/-- `i as u32` for a signed value `i : i32` (two's-complement low 32 bits). -/
def i32_as_u32 (i : Int) : Nat := (i % 4294967296).toNat

/-- `n as u32` for `n : usize` (low 32 bits). -/
def usize_as_u32 (n : Nat) : Nat := n % 4294967296

/-- `n as i32` for `n : usize` (low 32 bits reinterpreted as signed). -/
def usize_as_i32 (n : Nat) : Int :=
  if n % 4294967296 < 2147483648 then ((n % 4294967296 : Nat) : Int)
  else ((n % 4294967296 : Nat) : Int) - 4294967296

/-- `i as usize` for a signed value `i : i32` (sign-extend, low 64 bits). -/
def i32_as_usize (i : Int) : Nat := (i % 18446744073709551616).toNat

/-- Wrapping `u32` subtraction. -/
def u32_sub (a b : Nat) : Nat := (((a : Int) - (b : Int)) % 4294967296).toNat

/-- Wrapping `u32` addition. -/
def u32_add (a b : Nat) : Nat := (a + b) % 4294967296

/-- Result of an `i32` arithmetic operation, wrapped into `[-2^31, 2^31)`. -/
def i32_wrap (i : Int) : Int := (i + 2147483648) % 4294967296 - 2147483648

/-- `i32` arithmetic shift right by 6 (`advance >> 6`): floor division by 64. -/
def i32_shr6 (a : Int) : Int := Int.fdiv a 64

/-! ### Pixel modes (`impl PixelBitSize for freetype::bitmap::PixelMode`) -/

inductive PixelMode where
  | pmNone
  | mono
  | gray
  | gray2
  | gray4
  | lcd
  | lcdV
  | bgra
deriving DecidableEq

instance : Inhabited PixelMode := ⟨PixelMode.gray⟩

/-- Bit size of one pixel, from `PixelBitSize::get_size`. -/
def PixelMode.get_size : PixelMode → Nat
  | .pmNone => 0
  | .mono => 1
  | .gray => 8
  | .gray2 => 2
  | .gray4 => 4
  | .lcd => 8
  | .lcdV => 8
  | .bgra => 32

/-! ### Data model (`GlyphDesc`, `GlyphRect`, rendered glyphs, faces) -/

/-- `struct GlyphDesc` of `src/text/mod.rs`; all `i32` fields are `Int`,
`x_start : usize` is `Nat`. -/
structure GlyphDesc where
  x_start : Nat
  h : Int
  w : Int
  pitch : Int
  bearing_x : Int
  bearing_y : Int
  advance : Int
deriving DecidableEq, Inhabited

/-- `struct GlyphRect` of `src/text/mod.rs`: top-left / bottom-right
pixel coordinates (`u32` pairs). -/
structure GlyphRect where
  tl : Nat × Nat
  br : Nat × Nat
deriving DecidableEq, Inhabited

def GlyphRect.new (tl br : Nat × Nat) : GlyphRect := ⟨tl, br⟩

/-- `GlyphRect::normalized`: `f32` arithmetic modelled exactly over `ℚ`. -/
def GlyphRect.normalized (r : GlyphRect) (h w : Nat) : (ℚ × ℚ) × (ℚ × ℚ) :=
  (((r.tl.1 : ℚ) / (w : ℚ), (r.tl.2 : ℚ) / (h : ℚ)),
   ((r.br.1 : ℚ) / (w : ℚ), (r.br.2 : ℚ) / (h : ℚ)))

/-- One rendered glyph as read off the freetype glyph slot:
`bitmap.buffer()`, `bitmap.rows()`, `bitmap.width()`, `bitmap.pitch()`,
`glyph.bitmap_left()`, `glyph.bitmap_top()`, `glyph.advance().x`,
`bitmap.pixel_mode()` (a `Result` in the source, hence `Option`). -/
structure RenderedGlyph where
  buffer : List Nat
  rows : Int
  width : Int
  pitch : Int
  bitmap_left : Int
  bitmap_top : Int
  advance_x : Int
  pixel_mode : Option PixelMode
deriving DecidableEq, Inhabited

/-- A font face: `set_char_size` may fail (panic via `unwrap`), and
`load_char(ch, RENDER)` either fails or yields the rendered glyph. -/
structure Face where
  set_char_size_ok : Bool
  render : Nat → Option RenderedGlyph

/-- Well-formedness of a rendered glyph, as guaranteed by the rasterizer:
non-negative dimensions and pitch within sane bitmap bounds, bearing
within bounds, and the buffer holding exactly `rows * pitch` bytes. -/
def RenderedGlyph.wf (g : RenderedGlyph) : Prop :=
  0 ≤ g.rows ∧ g.rows ≤ 32768 ∧
  0 ≤ g.width ∧ g.width ≤ 32768 ∧
  0 ≤ g.pitch ∧ g.pitch ≤ 32768 ∧
  -32768 ≤ g.bitmap_top ∧ g.bitmap_top ≤ 32768 ∧
  g.buffer.length = (g.rows * g.pitch).toNat

/-- Well-formed face: sizing succeeds and every glyph it renders is
well-formed. -/
def Face.wf (face : Face) : Prop :=
  face.set_char_size_ok = true ∧
  ∀ ch g, face.render ch = Option.some g → g.wf

/-- The glyph a face renders for `ch` (meaningful once rendering is known
to succeed). -/
def glyphAt (face : Face) (ch : Nat) : RenderedGlyph :=
  (face.render ch).getD default

/-! ### `LinearTextAtlas` and `LinearTextAtlas::create` -/

structure LinearTextAtlas where
  sum_pitch : Nat
  max_y_max : Nat
  max_y_min : Nat
  pixel_mode : PixelMode
  descriptors : List GlyphDesc
  bytes : List Nat
deriving DecidableEq, Inhabited

/-- Loop state of `LinearTextAtlas::create`: the accumulators
`descriptors`, `bytes`, `sum_pitch : i32`, `max_y_max max_y_min : i32`,
`stride : usize`, `pixel_mode : Option<PixelMode>`. -/
structure LinState where
  descriptors : List GlyphDesc
  bytes : List Nat
  sum_pitch : Int
  max_y_max : Int
  max_y_min : Int
  stride : Nat
  pixel_mode : Option PixelMode
deriving Inhabited

/-- One iteration of the `for ch in 0..COUNT` loop of
`LinearTextAtlas::create`; `Option.none` models the panics of the three
`unwrap`s (`set_char_size`, `load_char`, `pixel_mode`). -/
def linStep (face : Face) (st : LinState) (ch : Nat) : Option LinState :=
  if face.set_char_size_ok = false then Option.none else
  match face.render ch with
  | Option.none => Option.none
  | Option.some g =>
    match g.pixel_mode with
    | Option.none => Option.none
    | Option.some pm =>
      let desc : GlyphDesc :=
        { x_start := st.stride
          h := g.rows
          w := g.width
          pitch := g.pitch
          bearing_x := g.bitmap_left
          bearing_y := g.bitmap_top
          advance := g.advance_x }
      Option.some
        { descriptors := st.descriptors ++ [desc]
          bytes := st.bytes ++ g.buffer
          sum_pitch := i32_wrap (st.sum_pitch + desc.pitch)
          max_y_max := max st.max_y_max desc.bearing_y
          max_y_min := max st.max_y_min (i32_wrap (desc.h - desc.bearing_y))
          stride := st.stride + i32_as_usize (i32_wrap (desc.h * desc.pitch))
          pixel_mode := Option.some pm }

def linRun (face : Face) : List Nat → LinState → Option LinState
  | [], st => Option.some st
  | ch :: rest, st =>
    match linStep face st ch with
    | Option.none => Option.none
    | Option.some st2 => linRun face rest st2

/-- `LinearTextAtlas::create`, over `COUNT = 128` character codes.
The function returns `Result<Self>` in the source and its only return is
`Ok(..)`; panics are `Option.none`. -/
def LinearTextAtlas.create (face : Face) : Option (Except String LinearTextAtlas) :=
  match linRun face (List.range 128)
      { descriptors := [], bytes := [], sum_pitch := 0, max_y_max := 0,
        max_y_min := 0, stride := 0, pixel_mode := Option.none } with
  | Option.none => Option.none
  | Option.some st =>
    match st.pixel_mode with
    | Option.none => Option.none
    | Option.some pm =>
      Option.some (Except.ok
        { sum_pitch := i32_as_usize st.sum_pitch
          max_y_max := i32_as_usize st.max_y_max
          max_y_min := i32_as_usize st.max_y_min
          pixel_mode := pm
          descriptors := st.descriptors
          bytes := st.bytes })

/-- `LinearTextAtlas::get_glyph_texture`: the descriptor together with
the glyph's slice `bytes[stride..stride+size]` of the flat buffer. -/
def LinearTextAtlas.get_glyph_texture (la : LinearTextAtlas) (ch : Nat) :
    GlyphDesc × List Nat :=
  let desc := la.descriptors.getD ch default
  let stride := desc.x_start
  let size := i32_as_usize (i32_wrap (desc.h * desc.pitch))
  (desc, (la.bytes.drop stride).take size)

/-! ### `TextAtlas` and `TextAtlas::create` -/

structure TextAtlas where
  descriptors : List GlyphDesc
  rects : List GlyphRect
  w : Nat
  h : Nat
  stride : Nat
  bytes : List Nat
deriving DecidableEq, Inhabited

/-- The inner row copy
`bytes[offset..offset + pitch].clone_from_slice(&texture[pitch*i..pitch*(i+1)])`:
byte `c` of the row is `texture[soff + c]` written at `dst[off + c]`. -/
def copyRow (dst : List Nat) (off : Nat) (src : List Nat) (soff : Nat) :
    Nat → List Nat
  | 0 => dst
  | Nat.succ n => copyRow (dst.set off (src.getD soff 0)) (off + 1) src (soff + 1) n

/-- The `for i in 0..desc.h as usize` row loop of `TextAtlas::create`,
rows `i, i+1, …, i+count-1`; row `i` lands at
`offset = (tl.1 as usize + i) * fit_w + x_start`. -/
def copyGlyph (fit_w tl1 x_start pitchN : Nat) (texture : List Nat)
    (dst : List Nat) (i : Nat) : Nat → List Nat
  | 0 => dst
  | Nat.succ c =>
      copyGlyph fit_w tl1 x_start pitchN texture
        (copyRow dst ((tl1 + i) * fit_w + x_start) texture (pitchN * i) pitchN)
        (i + 1) c

/-- Loop state of `TextAtlas::create`: `rects`, the destination `bytes`,
and the running `x_start`. -/
structure PackState where
  rects : List GlyphRect
  bytes : List Nat
  x_start : Nat
deriving Inhabited

/-- One iteration of the `for ch in 0..COUNT` loop of `TextAtlas::create`. -/
def packStep (la : LinearTextAtlas) (fit_w : Nat) (zero : Int)
    (st : PackState) (ch : Nat) : PackState :=
  let dt := la.get_glyph_texture ch
  let desc := dt.1
  let texture := dt.2
  let tl : Nat × Nat :=
    (usize_as_u32 st.x_start, u32_sub (i32_as_u32 zero) (i32_as_u32 desc.bearing_y))
  let br : Nat × Nat :=
    (u32_sub (u32_add tl.1 (i32_as_u32 desc.w)) 1,
     u32_sub (u32_add tl.2 (i32_as_u32 desc.h)) 1)
  let bytes2 :=
    copyGlyph fit_w tl.2 st.x_start (i32_as_usize desc.pitch) texture st.bytes
      0 (i32_as_usize desc.h)
  { rects := st.rects ++ [GlyphRect.new tl br]
    bytes := bytes2
    x_start := st.x_start + i32_as_usize desc.pitch }

def packRun (la : LinearTextAtlas) (fit_w : Nat) (zero : Int) :
    List Nat → PackState → PackState
  | [], st => st
  | ch :: rest, st => packRun la fit_w zero rest (packStep la fit_w zero st ch)

/-- `TextAtlas::create`, over `COUNT = 128` character codes. -/
def TextAtlas.create (la : LinearTextAtlas) : TextAtlas :=
  let fit_w := la.sum_pitch
  let fit_h := la.max_y_max + la.max_y_min
  let zero := usize_as_i32 la.max_y_max
  let st := packRun la fit_w zero (List.range 128)
    { rects := [], bytes := List.replicate (fit_h * fit_w) 0, x_start := 0 }
  { descriptors := la.descriptors
    rects := st.rects
    h := fit_h
    w := fit_w / (la.pixel_mode.get_size / 8)
    stride := fit_w
    bytes := st.bytes }

/-! ### Text mesh (`src/text/mesh.rs`), over exact `ℚ` coordinates -/

/-- `resource::buffer::Vertex`. -/
structure Vertex where
  position : ℚ × ℚ × ℚ
  tex_coords : ℚ × ℚ
deriving DecidableEq, Inhabited

inductive PrimitiveTopology where
  | triangleList
deriving DecidableEq

/-- `render::mesh::Mesh` (the fields used by the text mesh builder). -/
structure Mesh where
  primitive_topology : PrimitiveTopology
  vertices : List Vertex
  indices : Option (List Nat)

def Mesh.with_all (primitive_topology : PrimitiveTopology)
    (vertices : List Vertex) (indices : Option (List Nat)) : Mesh :=
  { primitive_topology, vertices, indices }

/-- The character loop of `create_screen_text_mesh`: six vertices per
character, pen `x` advanced by `(advance >> 6) as f32`. -/
def textVertices (atlas : TextAtlas) (y : ℚ) : ℚ → List Nat → List Vertex
  | _, [] => []
  | x, ch :: rest =>
    let desc := atlas.descriptors.getD ch default
    let n := (atlas.rects.getD ch default).normalized atlas.h atlas.w
    let tl := n.1
    let br := n.2
    let decsend := i32_wrap (desc.h - desc.bearing_y)
    let x_start : ℚ := x + (desc.bearing_x : ℚ)
    let y_start : ℚ := y - (decsend : ℚ)
    let hq : ℚ := (desc.h : ℚ)
    let wq : ℚ := (desc.w : ℚ)
    [ { position := (x_start, y_start + hq, 0), tex_coords := (tl.1, tl.2) },
      { position := (x_start, y_start, 0), tex_coords := (tl.1, br.2) },
      { position := (x_start + wq, y_start, 0), tex_coords := (br.1, br.2) },
      { position := (x_start + wq, y_start, 0), tex_coords := (br.1, br.2) },
      { position := (x_start + wq, y_start + hq, 0), tex_coords := (br.1, tl.2) },
      { position := (x_start, y_start + hq, 0), tex_coords := (tl.1, tl.2) } ]
    ++ textVertices atlas y (x + ((i32_shr6 desc.advance : Int) : ℚ)) rest

/-- `create_screen_text_mesh(atlas, src, coord)`; the string is the list
of its character codes. -/
def create_screen_text_mesh (atlas : TextAtlas) (src : List Nat)
    (coord : ℚ × ℚ) : Mesh :=
  Mesh.with_all PrimitiveTopology.triangleList
    (textVertices atlas coord.2 coord.1 src) Option.none

/-! ### `FontContainer` and `TextMap` -/

structure FontContainer where
  face : Face
  linear_atlas : LinearTextAtlas
  atlas : TextAtlas

/-- `FontContainer::new`: the `library.new_face(..)` result is an input;
both `.unwrap()`s panic (`Option.none`) rather than propagate. -/
def FontContainer.new (library_new_face : Except String Face) :
    Option (Except String FontContainer) :=
  match library_new_face with
  | Except.error _ => Option.none
  | Except.ok face =>
    match LinearTextAtlas.create face with
    | Option.none => Option.none
    | Option.some (Except.error _) => Option.none
    | Option.some (Except.ok la) =>
      Option.some (Except.ok
        { face := face, linear_atlas := la, atlas := TextAtlas.create la })

/-- `TextMap` (the `HashMap` modelled as an association list). -/
structure TextMap where
  fonts : List (String × FontContainer)

/-- `TextMap::generate_from_path`: inserts the new `FontContainer`,
propagating an `Err` from `FontContainer::new` via `?`. -/
def TextMap.generate_from_path (tm : TextMap) (font : String)
    (library_new_face : Except String Face) : Option (Except String TextMap) :=
  match FontContainer.new library_new_face with
  | Option.none => Option.none
  | Option.some (Except.error e) => Option.some (Except.error e)
  | Option.some (Except.ok fc) =>
    Option.some (Except.ok { fonts := (font, fc) :: tm.fonts })

/-! ### Concrete faces for witnesses and counterexamples -/

/-- An empty glyph (zero-size bitmap), like a space character. -/
def zeroGlyph : RenderedGlyph :=
  { buffer := [], rows := 0, width := 0, pitch := 0, bitmap_left := 0,
    bitmap_top := 0, advance_x := 64, pixel_mode := Option.some PixelMode.gray }

/-- A 10×8 glyph sitting 8 pixels above the baseline (the spec's 'A'). -/
def glyphA : RenderedGlyph :=
  { buffer := List.replicate 80 9, rows := 10, width := 8, pitch := 8,
    bitmap_left := 0, bitmap_top := 8, advance_x := 640,
    pixel_mode := Option.some PixelMode.gray }

/-- A 6×6 glyph sitting on the baseline (the spec's 'B'). -/
def glyphB : RenderedGlyph :=
  { buffer := List.replicate 36 5, rows := 6, width := 6, pitch := 6,
    bitmap_left := 0, bitmap_top := 6, advance_x := 448,
    pixel_mode := Option.some PixelMode.gray }

/-- A face rendering 'A' (code 65) and 'B' (code 66) and empty glyphs
everywhere else. -/
def exampleFace : Face :=
  { set_char_size_ok := true
    render := fun ch =>
      if ch = 65 then Option.some glyphA
      else if ch = 66 then Option.some glyphB
      else Option.some zeroGlyph }

def exampleLa : LinearTextAtlas :=
  match LinearTextAtlas.create exampleFace with
  | Option.some (Except.ok la) => la
  | _ => default

/-- A face all of whose 128 glyphs are empty. -/
def trivialFace : Face :=
  { set_char_size_ok := true, render := fun _ => Option.some zeroGlyph }

def trivialLa : LinearTextAtlas :=
  match LinearTextAtlas.create trivialFace with
  | Option.some (Except.ok la) => la
  | _ => default

/-- Byte length the source accounts to glyph `ch`:
`(desc.h * desc.pitch) as usize`. -/
def glyphBytesLen (face : Face) (ch : Nat) : Nat :=
  i32_as_usize (i32_wrap ((glyphAt face ch).rows * (glyphAt face ch).pitch))

/-- Total byte length accounted to the glyphs of `l`. -/
def strideSum (face : Face) (l : List Nat) : Nat :=
  (l.map (glyphBytesLen face)).sum

/-- The descriptor recorded for glyph `ch` when the running byte offset
is `stride`. -/
def descOf (face : Face) (stride : Nat) (ch : Nat) : GlyphDesc :=
  { x_start := stride
    h := (glyphAt face ch).rows
    w := (glyphAt face ch).width
    pitch := (glyphAt face ch).pitch
    bearing_x := (glyphAt face ch).bitmap_left
    bearing_y := (glyphAt face ch).bitmap_top
    advance := (glyphAt face ch).advance_x }

/-- The descriptor list produced for the glyphs of `l`, starting at byte
offset `stride`. -/
def linDescs (face : Face) : Nat → List Nat → List GlyphDesc
  | _, [] => []
  | stride, ch :: rest =>
      descOf face stride ch :: linDescs face (stride + glyphBytesLen face ch) rest

/-- The flat byte buffer produced for the glyphs of `l`. -/
def bytesFlat (face : Face) (l : List Nat) : List Nat :=
  (l.map fun ch => (glyphAt face ch).buffer).flatten

/-- The `sum_pitch : i32` accumulator. -/
def pitchFold (face : Face) (l : List Nat) (init : Int) : Int :=
  l.foldl (fun s ch => i32_wrap (s + (glyphAt face ch).pitch)) init

/-- The `max_y_max : i32` accumulator. -/
def ascFold (face : Face) (l : List Nat) (init : Int) : Int :=
  l.foldl (fun s ch => max s (glyphAt face ch).bitmap_top) init

/-- The `max_y_min : i32` accumulator. -/
def descFold (face : Face) (l : List Nat) (init : Int) : Int :=
  l.foldl
    (fun s ch => max s (i32_wrap ((glyphAt face ch).rows - (glyphAt face ch).bitmap_top)))
    init

/-- Sum of the pitches of the glyphs of `l` (exact integer arithmetic). -/
def glyphPitchSum (face : Face) (l : List Nat) : Int :=
  (l.map fun ch => (glyphAt face ch).pitch).sum

/-- The `max_y_min` accumulator with exact (non-wrapping) subtraction. -/
def descFoldPlain (face : Face) (l : List Nat) (init : Int) : Int :=
  l.foldl
    (fun s ch => max s ((glyphAt face ch).rows - (glyphAt face ch).bitmap_top))
    init

/-- `desc.pitch as usize` for glyph `ch` of the linear atlas. -/
def pitchN (la : LinearTextAtlas) (ch : Nat) : Nat :=
  i32_as_usize (la.descriptors.getD ch default).pitch

/-- The rect pushed for glyph `ch` when the running offset is `x`. -/
def rectOf (la : LinearTextAtlas) (zero : Int) (x : Nat) (ch : Nat) : GlyphRect :=
  let desc := la.descriptors.getD ch default
  let tl : Nat × Nat :=
    (usize_as_u32 x, u32_sub (i32_as_u32 zero) (i32_as_u32 desc.bearing_y))
  GlyphRect.new tl
    (u32_sub (u32_add tl.1 (i32_as_u32 desc.w)) 1,
     u32_sub (u32_add tl.2 (i32_as_u32 desc.h)) 1)

/-- The rect list produced for the glyphs of `l`, starting at offset `x`. -/
def packRects (la : LinearTextAtlas) (zero : Int) : Nat → List Nat → List GlyphRect
  | _, [] => []
  | x, ch :: rest => rectOf la zero x ch :: packRects la zero (x + pitchN la ch) rest

/-- Running offset of glyph `i` in the atlas row: sum of the earlier
pitches. -/
def xOffN (la : LinearTextAtlas) (i : Nat) : Nat :=
  ((List.range i).map (pitchN la)).sum

/-- The quad the spec prescribes for one character (§4.4): left edge
`pen_x + bearing_x`, bottom edge `pen_y - (height - bearing_y)`, extent
`width × height`, texture coordinates the glyph's normalized rect, as
two triangles sharing the bottom-right/top-left diagonal. -/
def specQuad (atlas : TextAtlas) (px py : ℚ) (ch : Nat) : List Vertex :=
  let d := atlas.descriptors.getD ch default
  let n := (atlas.rects.getD ch default).normalized atlas.h atlas.w
  let left : ℚ := px + (d.bearing_x : ℚ)
  let bottom : ℚ := py - ((d.h - d.bearing_y : Int) : ℚ)
  let w : ℚ := (d.w : ℚ)
  let h : ℚ := (d.h : ℚ)
  [ { position := (left, bottom + h, 0), tex_coords := (n.1.1, n.1.2) },
    { position := (left, bottom, 0), tex_coords := (n.1.1, n.2.2) },
    { position := (left + w, bottom, 0), tex_coords := (n.2.1, n.2.2) },
    { position := (left + w, bottom, 0), tex_coords := (n.2.1, n.2.2) },
    { position := (left + w, bottom + h, 0), tex_coords := (n.2.1, n.1.2) },
    { position := (left, bottom + h, 0), tex_coords := (n.1.1, n.1.2) } ]

/-- The spec's mesh: one quad per character, the pen advanced by
`advance >> 6` after each. -/
def specTextVertices (atlas : TextAtlas) (py : ℚ) : ℚ → List Nat → List Vertex
  | _, [] => []
  | px, ch :: rest =>
      specQuad atlas px py ch
        ++ specTextVertices atlas py
            (px + ((i32_shr6 (atlas.descriptors.getD ch default).advance : Int) : ℚ))
            rest

/-- `tl.1` (the destination row origin) of glyph `ch` under baseline `z`. -/
def tlYof (la : LinearTextAtlas) (z : Int) (ch : Nat) : Nat :=
  u32_sub (i32_as_u32 z) (i32_as_u32 (la.descriptors.getD ch default).bearing_y)

/-- `desc.h as usize`: the number of rows copied for glyph `ch`. -/
def hNof (la : LinearTextAtlas) (ch : Nat) : Nat :=
  i32_as_usize (la.descriptors.getD ch default).h

/-- Glyph `ch`'s slice of the linear buffer. -/
def texOf (la : LinearTextAtlas) (ch : Nat) : List Nat :=
  (la.get_glyph_texture ch).2

/-- Sum of the `usize` pitches of the glyphs of `l`. -/
def sumPN (la : LinearTextAtlas) (l : List Nat) : Nat :=
  (l.map (pitchN la)).sum

instance (g : RenderedGlyph) : Decidable g.wf := by
  unfold RenderedGlyph.wf
  infer_instance

def exampleNewResult : Except String FontContainer :=
  (FontContainer.new (Except.ok trivialFace)).getD (Except.error "")

def exampleGenResult : Except String TextMap :=
  (TextMap.generate_from_path { fonts := [] } "arial"
    (Except.ok trivialFace)).getD (Except.error "")


/-! ### Cast lemmas: in-range machine arithmetic is exact -/

theorem i32_wrap_eq {i : Int} (h1 : -2147483648 ≤ i) (h2 : i < 2147483648) :
    i32_wrap i = i := by
  unfold i32_wrap
  rw [Int.emod_eq_of_lt (by omega) (by omega)]
  omega

theorem i32_as_usize_eq {i : Int} (h1 : 0 ≤ i) (h2 : i < 18446744073709551616) :
    i32_as_usize i = i.toNat := by
  unfold i32_as_usize
  rw [Int.emod_eq_of_lt h1 h2]

theorem usize_as_u32_eq {n : Nat} (h : n < 4294967296) : usize_as_u32 n = n :=
  Nat.mod_eq_of_lt h

theorem i32_as_u32_eq {i : Int} (h1 : 0 ≤ i) (h2 : i < 4294967296) :
    i32_as_u32 i = i.toNat := by
  unfold i32_as_u32
  rw [Int.emod_eq_of_lt h1 h2]

theorem usize_as_i32_eq {n : Nat} (h : n < 2147483648) : usize_as_i32 n = n := by
  unfold usize_as_i32
  rw [Nat.mod_eq_of_lt (by omega)]
  simp [h]

theorem u32_add_eq {a b : Nat} (h : a + b < 4294967296) : u32_add a b = a + b :=
  Nat.mod_eq_of_lt h

theorem u32_sub_eq {a b : Nat} (h1 : b ≤ a) (h2 : a < 4294967296) :
    u32_sub a b = a - b := by
  unfold u32_sub
  rw [Int.emod_eq_of_lt (by omega) (by omega)]
  omega

/-- The `tl.1` computation `zero as u32 - bearing_y as u32` is the exact
difference whenever `bearing_y ≤ zero` and both are small. -/
theorem u32_sub_casts_eq {z b : Int} (hz0 : 0 ≤ z) (hz : z < 2147483648)
    (hb1 : -2147483648 ≤ b) (hb2 : b ≤ z) :
    u32_sub (i32_as_u32 z) (i32_as_u32 b) = (z - b).toNat := by
  unfold u32_sub i32_as_u32
  omega

/-! ### List helper lemmas -/

theorem getD_set_ne {l : List Nat} {i j : Nat} {v : Nat} (h : i ≠ j) :
    (l.set i v).getD j 0 = l.getD j 0 := by
  rw [List.getD_eq_getElem?_getD, List.getD_eq_getElem?_getD,
    List.getElem?_set, if_neg h]

theorem getD_set_self {l : List Nat} {i : Nat} {v : Nat} (h : i < l.length) :
    (l.set i v).getD i 0 = v := by
  rw [List.getD_eq_getElem?_getD, List.getElem?_set, if_pos rfl, if_pos h]
  rfl

theorem getD_take_of_lt {l : List Nat} {n m : Nat} (h : m < n) :
    (l.take n).getD m 0 = l.getD m 0 := by
  rw [List.getD_eq_getElem?_getD, List.getD_eq_getElem?_getD,
    List.getElem?_take, if_pos h]

theorem getD_drop (l : List Nat) (n m : Nat) :
    (l.drop n).getD m 0 = l.getD (n + m) 0 := by
  rw [List.getD_eq_getElem?_getD, List.getD_eq_getElem?_getD,
    List.getElem?_drop]

theorem getD_append_left {l1 l2 : List Nat} {i : Nat} (h : i < l1.length) :
    ((l1 ++ l2).getD i 0) = l1.getD i 0 := by
  rw [List.getD_eq_getElem?_getD, List.getD_eq_getElem?_getD,
    List.getElem?_append_left h]

theorem getD_range {n i : Nat} (h : i < n) : (List.range n).getD i 0 = i := by
  rw [List.getD_eq_getElem?_getD, List.getElem?_range h]
  rfl

/-! ### Characterization of `LinearTextAtlas::create` -/

theorem linDescs_length (face : Face) :
    ∀ (l : List Nat) (stride : Nat), (linDescs face stride l).length = l.length
  | [], _ => rfl
  | _ :: rest, stride => by
      simp [linDescs, linDescs_length face rest]

theorem linDescs_getD (face : Face) :
    ∀ (l : List Nat) (stride k : Nat), k < l.length →
      (linDescs face stride l).getD k default =
        descOf face (stride + strideSum face (l.take k)) (l.getD k 0)
  | [], _, k, h => by simp at h
  | ch :: rest, stride, 0, _ => by
      simp [linDescs, strideSum]
  | ch :: rest, stride, Nat.succ k, h => by
      have := linDescs_getD face rest (stride + glyphBytesLen face ch) k
        (by simpa using h)
      simpa [linDescs, strideSum, Nat.add_assoc] using this

/-- Master characterization of the `LinearTextAtlas::create` loop. -/
theorem linRun_spec (face : Face) (l : List Nat) :
    ∀ (st st' : LinState), linRun face l st = Option.some st' →
      (∀ ch ∈ l, ∃ g, face.render ch = Option.some g) ∧
      st'.descriptors = st.descriptors ++ linDescs face st.stride l ∧
      st'.stride = st.stride + strideSum face l ∧
      st'.bytes = st.bytes ++ bytesFlat face l ∧
      st'.sum_pitch = pitchFold face l st.sum_pitch ∧
      st'.max_y_max = ascFold face l st.max_y_max ∧
      st'.max_y_min = descFold face l st.max_y_min := by
  induction l with
  | nil =>
      intro st st' h
      cases h
      simp [linDescs, strideSum, bytesFlat, pitchFold, ascFold, descFold]
  | cons ch rest ih =>
      intro st st' h
      simp only [linRun] at h
      cases hstep : linStep face st ch with
      | none => rw [hstep] at h; cases h
      | some st2 =>
          rw [hstep] at h
          obtain ⟨hsucc, hdesc, hstr, hbytes, hsum, hasc, hdsc⟩ := ih st2 st' h
          unfold linStep at hstep
          split at hstep
          · cases hstep
          · split at hstep
            · cases hstep
            · rename_i g hr
              split at hstep
              · cases hstep
              · rename_i pm hpm
                cases hstep
                have hg : glyphAt face ch = g := by
                  simp [glyphAt, hr]
                refine ⟨?_, ?_, ?_, ?_, ?_, ?_, ?_⟩
                · intro c hc
                  rcases List.mem_cons.mp hc with rfl | hc2
                  · exact ⟨g, hr⟩
                  · exact hsucc c hc2
                · rw [hdesc]
                  simp [linDescs, descOf, hg, glyphBytesLen,
                    List.append_assoc]
                · rw [hstr]
                  simp [strideSum, glyphBytesLen, hg, Nat.add_assoc]
                · rw [hbytes]
                  simp [bytesFlat, hg, List.append_assoc]
                · rw [hsum]; simp [pitchFold, hg]
                · rw [hasc]; simp [ascFold, hg]
                · rw [hdsc]; simp [descFold, hg]

/-- Unfolding of `LinearTextAtlas.create` to its loop result. -/
theorem create_spec {face : Face} {la : LinearTextAtlas}
    (h : LinearTextAtlas.create face = Option.some (Except.ok la)) :
    ∃ st : LinState,
      linRun face (List.range 128)
        { descriptors := [], bytes := [], sum_pitch := 0, max_y_max := 0,
          max_y_min := 0, stride := 0, pixel_mode := Option.none }
        = Option.some st ∧
      la.descriptors = st.descriptors ∧
      la.bytes = st.bytes ∧
      la.sum_pitch = i32_as_usize st.sum_pitch ∧
      la.max_y_max = i32_as_usize st.max_y_max ∧
      la.max_y_min = i32_as_usize st.max_y_min ∧
      st.pixel_mode = Option.some la.pixel_mode := by
  unfold LinearTextAtlas.create at h
  split at h
  · cases h
  · rename_i st hrun
    split at h
    · cases h
    · rename_i pm hpm
      cases h
      exact ⟨st, hrun, rfl, rfl, rfl, rfl, rfl, by rw [hpm]⟩

/-! ### Arithmetic facts under well-formed input -/

theorem glyphAt_wf_of_succ {face : Face} (hw : Face.wf face) {l : List Nat}
    (hs : ∀ ch ∈ l, ∃ g, face.render ch = Option.some g) :
    ∀ ch ∈ l, (glyphAt face ch).wf := by
  intro ch hch
  obtain ⟨g, hg⟩ := hs ch hch
  have := hw.2 ch g hg
  simpa [glyphAt, hg] using this

theorem foldlMax_le {f : Nat → Int} {B : Int} :
    ∀ (l : List Nat) (init : Int), init ≤ B → (∀ ch ∈ l, f ch ≤ B) →
      l.foldl (fun s ch => max s (f ch)) init ≤ B
  | [], init, h, _ => h
  | ch :: rest, init, h, hmem => by
      refine foldlMax_le rest (max init (f ch)) ?_ ?_
      · exact max_le h (hmem ch (List.mem_cons_self ch rest))
      · intro c hc; exact hmem c (List.mem_cons_of_mem ch hc)

theorem le_foldlMax_init {f : Nat → Int} :
    ∀ (l : List Nat) (init : Int), init ≤ l.foldl (fun s ch => max s (f ch)) init
  | [], _ => le_refl _
  | ch :: rest, init =>
      le_trans (le_max_left init (f ch)) (le_foldlMax_init rest (max init (f ch)))

theorem le_foldlMax_mem {f : Nat → Int} {ch : Nat} :
    ∀ (l : List Nat), ch ∈ l → ∀ init : Int,
      f ch ≤ l.foldl (fun s c => max s (f c)) init := by
  intro l
  induction l with
  | nil => intro h; cases h
  | cons c rest ih =>
      intro h init
      rcases List.mem_cons.mp h with rfl | h2
      · exact le_trans (le_max_right init (f ch)) (le_foldlMax_init rest _)
      · exact ih h2 _

theorem glyphPitchSum_nonneg {face : Face} :
    ∀ l : List Nat, (∀ ch ∈ l, 0 ≤ (glyphAt face ch).pitch) →
      0 ≤ glyphPitchSum face l
  | [], _ => le_refl _
  | ch :: rest, h => by
      have h1 := h ch (List.mem_cons_self ch rest)
      have h2 := glyphPitchSum_nonneg rest
        (fun c hc => h c (List.mem_cons_of_mem ch hc))
      simp only [glyphPitchSum, List.map_cons, List.sum_cons]
      simp only [glyphPitchSum] at h2
      omega

theorem glyphPitchSum_le {face : Face} :
    ∀ l : List Nat, (∀ ch ∈ l, (glyphAt face ch).pitch ≤ 32768) →
      glyphPitchSum face l ≤ 32768 * l.length
  | [], _ => by simp [glyphPitchSum]
  | ch :: rest, h => by
      have h1 := h ch (List.mem_cons_self ch rest)
      have h2 := glyphPitchSum_le rest
        (fun c hc => h c (List.mem_cons_of_mem ch hc))
      simp only [glyphPitchSum, List.map_cons, List.sum_cons, List.length_cons]
      simp only [glyphPitchSum] at h2
      push_cast
      omega

theorem pitchFold_eq {face : Face} :
    ∀ (l : List Nat) (init : Int),
      (∀ ch ∈ l, 0 ≤ (glyphAt face ch).pitch ∧ (glyphAt face ch).pitch ≤ 32768) →
      0 ≤ init → init + 32768 * l.length ≤ 2147483647 →
      pitchFold face l init = init + glyphPitchSum face l
  | [], init, _, _, _ => by simp [pitchFold, glyphPitchSum]
  | ch :: rest, init, hmem, h0, hB => by
      have hp := hmem ch (List.mem_cons_self ch rest)
      have hwrap : i32_wrap (init + (glyphAt face ch).pitch)
          = init + (glyphAt face ch).pitch := by
        refine i32_wrap_eq (by omega) ?_
        simp only [List.length_cons] at hB
        push_cast at hB
        omega
      have hrec := pitchFold_eq rest (init + (glyphAt face ch).pitch)
        (fun c hc => hmem c (List.mem_cons_of_mem ch hc))
        (by omega)
        (by simp only [List.length_cons] at hB; push_cast at hB ⊢; omega)
      simp only [pitchFold, List.foldl_cons, hwrap]
      simp only [pitchFold] at hrec
      rw [hrec]
      simp only [glyphPitchSum, List.map_cons, List.sum_cons]
      ring

theorem descFold_unwrap {face : Face} :
    ∀ (l : List Nat) (init : Int), (∀ ch ∈ l, (glyphAt face ch).wf) →
      descFold face l init = descFoldPlain face l init
  | [], _, _ => rfl
  | ch :: rest, init, h => by
      have hwf := h ch (List.mem_cons_self ch rest)
      obtain ⟨h1, h2, _, _, _, _, h7, h8, _⟩ := hwf
      have : i32_wrap ((glyphAt face ch).rows - (glyphAt face ch).bitmap_top)
          = (glyphAt face ch).rows - (glyphAt face ch).bitmap_top :=
        i32_wrap_eq (by omega) (by omega)
      simp only [descFold, descFoldPlain, List.foldl_cons, this]
      exact descFold_unwrap rest _ (fun c hc => h c (List.mem_cons_of_mem ch hc))

theorem glyphBytesLen_eq_of_wf {face : Face} {ch : Nat}
    (h : (glyphAt face ch).wf) :
    glyphBytesLen face ch
      = ((glyphAt face ch).rows * (glyphAt face ch).pitch).toNat := by
  obtain ⟨h1, h2, _, _, h5, h6, _, _, _⟩ := h
  have hmul0 : 0 ≤ (glyphAt face ch).rows * (glyphAt face ch).pitch :=
    mul_nonneg h1 h5
  have hmul : (glyphAt face ch).rows * (glyphAt face ch).pitch
      ≤ 32768 * 32768 := mul_le_mul h2 h6 h5 (by omega)
  unfold glyphBytesLen
  rw [i32_wrap_eq (by omega) (by omega), i32_as_usize_eq hmul0 (by omega)]

theorem bytesFlat_length {face : Face} :
    ∀ l : List Nat, (∀ ch ∈ l, (glyphAt face ch).wf) →
      (bytesFlat face l).length = strideSum face l
  | [], _ => rfl
  | ch :: rest, h => by
      have hwf := h ch (List.mem_cons_self ch rest)
      have hlen : (glyphAt face ch).buffer.length
          = ((glyphAt face ch).rows * (glyphAt face ch).pitch).toNat := hwf.2.2.2.2.2.2.2.2
      have hrec := bytesFlat_length rest
        (fun c hc => h c (List.mem_cons_of_mem ch hc))
      simp only [bytesFlat, strideSum, List.map_cons, List.flatten_cons,
        List.length_append, List.sum_cons] at hrec ⊢
      rw [hrec, hlen, glyphBytesLen_eq_of_wf hwf]

/-- What `LinearTextAtlas::create` produces on a well-formed face, in
closed form. -/
theorem linear_characterization {face : Face} {la : LinearTextAtlas}
    (hw : Face.wf face)
    (hla : LinearTextAtlas.create face = Option.some (Except.ok la)) :
    (∀ ch ∈ List.range 128, (glyphAt face ch).wf) ∧
    la.descriptors = linDescs face 0 (List.range 128) ∧
    la.bytes = bytesFlat face (List.range 128) ∧
    (la.sum_pitch : Int) = glyphPitchSum face (List.range 128) ∧
    (la.max_y_max : Int) = ascFold face (List.range 128) 0 ∧
    (la.max_y_min : Int) = descFoldPlain face (List.range 128) 0 := by
  obtain ⟨st, hrun, hdesc, hbytes, hsum, hmax, hmin, hpm⟩ := create_spec hla
  obtain ⟨hsucc, hdesc', hstr', hbytes', hsum', hasc', hdsc'⟩ :=
    linRun_spec face _ _ _ hrun
  simp only at hdesc' hstr' hbytes' hsum' hasc' hdsc'
  have hwfall := glyphAt_wf_of_succ hw hsucc
  have hpb : ∀ ch ∈ List.range 128,
      0 ≤ (glyphAt face ch).pitch ∧ (glyphAt face ch).pitch ≤ 32768 := by
    intro ch hch
    obtain ⟨_, _, _, _, h5, h6, _⟩ := hwfall ch hch
    exact ⟨h5, h6⟩
  have hsumval : st.sum_pitch = glyphPitchSum face (List.range 128) := by
    rw [hsum', pitchFold_eq (List.range 128) 0 hpb (le_refl 0)
      (by simp [List.length_range])]
    simp
  have hsum0 : 0 ≤ glyphPitchSum face (List.range 128) :=
    glyphPitchSum_nonneg _ (fun ch hch => (hpb ch hch).1)
  have hsumB : glyphPitchSum face (List.range 128) ≤ 32768 * 128 := by
    have := @glyphPitchSum_le face (List.range 128)
      (fun ch hch => (hpb ch hch).2)
    simpa [List.length_range] using this
  have hascval : st.max_y_max = ascFold face (List.range 128) 0 := hasc'
  have hasc0 : 0 ≤ ascFold face (List.range 128) 0 := le_foldlMax_init _ _
  have hascB : ascFold face (List.range 128) 0 ≤ 32768 := by
    simp only [ascFold]
    refine foldlMax_le _ _ (by omega) ?_
    intro ch hch
    exact (hwfall ch hch).2.2.2.2.2.2.2.1
  have hminval : st.max_y_min = descFoldPlain face (List.range 128) 0 := by
    rw [hdsc', descFold_unwrap _ _ hwfall]
  have hmin0 : 0 ≤ descFoldPlain face (List.range 128) 0 := le_foldlMax_init _ _
  have hminB : descFoldPlain face (List.range 128) 0 ≤ 65536 := by
    simp only [descFoldPlain]
    refine foldlMax_le _ _ (by omega) ?_
    intro ch hch
    obtain ⟨h1, h2, _, _, _, _, h7, h8, _⟩ := hwfall ch hch
    omega
  refine ⟨hwfall, ?_, ?_, ?_, ?_, ?_⟩
  · rw [hdesc, hdesc', List.nil_append]
  · rw [hbytes, hbytes', List.nil_append]
  · rw [hsum, hsumval, i32_as_usize_eq (by omega) (by omega)]
    omega
  · rw [hmax, hascval, i32_as_usize_eq (by omega) (by omega)]
    omega
  · rw [hmin, hminval, i32_as_usize_eq (by omega) (by omega)]
    omega

theorem la_descriptors_length {face : Face} {la : LinearTextAtlas}
    (hw : Face.wf face)
    (hla : LinearTextAtlas.create face = Option.some (Except.ok la)) :
    la.descriptors.length = 128 := by
  rw [(linear_characterization hw hla).2.1, linDescs_length, List.length_range]

theorem la_descs_getD {face : Face} {la : LinearTextAtlas}
    (hw : Face.wf face)
    (hla : LinearTextAtlas.create face = Option.some (Except.ok la))
    {i : Nat} (hi : i < 128) :
    la.descriptors.getD i default
      = descOf face (strideSum face (List.range i)) i := by
  rw [(linear_characterization hw hla).2.1,
    linDescs_getD face _ 0 i (by simpa [List.length_range] using hi)]
  rw [List.take_range, getD_range hi, Nat.min_eq_left (Nat.le_of_lt hi),
    Nat.zero_add]

theorem la_glyph_wf {face : Face} {la : LinearTextAtlas}
    (hw : Face.wf face)
    (hla : LinearTextAtlas.create face = Option.some (Except.ok la))
    {i : Nat} (hi : i < 128) : (glyphAt face i).wf :=
  (linear_characterization hw hla).1 i (List.mem_range.mpr hi)

/-! ### Characterization of `TextAtlas::create` -/

theorem copyRow_length (src : List Nat) :
    ∀ (n : Nat) (dst : List Nat) (off soff : Nat),
      (copyRow dst off src soff n).length = dst.length
  | 0, _, _, _ => rfl
  | Nat.succ n, dst, off, soff => by
      rw [copyRow, copyRow_length src n, List.length_set]

theorem copyGlyph_length (fit_w tl1 x_start pitchN : Nat) (texture : List Nat) :
    ∀ (count : Nat) (dst : List Nat) (i : Nat),
      (copyGlyph fit_w tl1 x_start pitchN texture dst i count).length
        = dst.length
  | 0, _, _ => rfl
  | Nat.succ c, dst, i => by
      rw [copyGlyph, copyGlyph_length fit_w tl1 x_start pitchN texture c,
        copyRow_length]

theorem packRects_length (la : LinearTextAtlas) (zero : Int) :
    ∀ (l : List Nat) (x : Nat), (packRects la zero x l).length = l.length
  | [], _ => rfl
  | _ :: rest, x => by
      simp [packRects, packRects_length la zero rest]

theorem packRects_getD (la : LinearTextAtlas) (zero : Int) :
    ∀ (l : List Nat) (x k : Nat), k < l.length →
      (packRects la zero x l).getD k default =
        rectOf la zero (x + ((l.take k).map (pitchN la)).sum) (l.getD k 0)
  | [], _, k, h => by simp at h
  | ch :: rest, x, 0, _ => by simp [packRects]
  | ch :: rest, x, Nat.succ k, h => by
      have := packRects_getD la zero rest (x + pitchN la ch) k
        (by simpa using h)
      simpa [packRects, Nat.add_assoc] using this

/-- Structural characterization of the `TextAtlas::create` loop. -/
theorem packRun_spec (la : LinearTextAtlas) (fw : Nat) (z : Int) :
    ∀ (l : List Nat) (st : PackState),
      (packRun la fw z l st).rects = st.rects ++ packRects la z st.x_start l ∧
      (packRun la fw z l st).x_start
        = st.x_start + (l.map (pitchN la)).sum ∧
      (packRun la fw z l st).bytes.length = st.bytes.length
  | [], st => by simp [packRun, packRects]
  | ch :: rest, st => by
      obtain ⟨h1, h2, h3⟩ := packRun_spec la fw z rest (packStep la fw z st ch)
      refine ⟨?_, ?_, ?_⟩
      · rw [packRun, h1]
        simp [packStep, packRects, rectOf, pitchN,
          LinearTextAtlas.get_glyph_texture, List.append_assoc]
      · rw [packRun, h2]
        simp [packStep, pitchN, LinearTextAtlas.get_glyph_texture]
        ring
      · rw [packRun, h3]
        simp [packStep, copyGlyph_length]

/-- The fields of `TextAtlas.create la` in terms of `la`. -/
theorem atlas_fields (la : LinearTextAtlas) :
    (TextAtlas.create la).descriptors = la.descriptors ∧
    (TextAtlas.create la).h = la.max_y_max + la.max_y_min ∧
    (TextAtlas.create la).w = la.sum_pitch / (la.pixel_mode.get_size / 8) ∧
    (TextAtlas.create la).stride = la.sum_pitch ∧
    (TextAtlas.create la).rects
      = packRects la (usize_as_i32 la.max_y_max) 0 (List.range 128) ∧
    (TextAtlas.create la).bytes.length
      = (la.max_y_max + la.max_y_min) * la.sum_pitch := by
  obtain ⟨h1, h2, h3⟩ := packRun_spec la la.sum_pitch (usize_as_i32 la.max_y_max)
    (List.range 128)
    { rects := [], bytes := List.replicate ((la.max_y_max + la.max_y_min) * la.sum_pitch) 0,
      x_start := 0 }
  refine ⟨rfl, rfl, rfl, rfl, ?_, ?_⟩
  · show (packRun la la.sum_pitch (usize_as_i32 la.max_y_max) (List.range 128)
      { rects := [], bytes := List.replicate ((la.max_y_max + la.max_y_min) * la.sum_pitch) 0,
        x_start := 0 }).rects = _
    rw [h1]
    simp
  · show (packRun la la.sum_pitch (usize_as_i32 la.max_y_max) (List.range 128)
      { rects := [], bytes := List.replicate ((la.max_y_max + la.max_y_min) * la.sum_pitch) 0,
        x_start := 0 }).bytes.length = _
    rw [h3]
    simp

theorem atlas_rects_getD (la : LinearTextAtlas) {i : Nat} (hi : i < 128) :
    (TextAtlas.create la).rects.getD i default
      = rectOf la (usize_as_i32 la.max_y_max) (xOffN la i) i := by
  rw [(atlas_fields la).2.2.2.2.1,
    packRects_getD la _ (List.range 128) 0 i (by simpa [List.length_range] using hi),
    List.take_range, getD_range hi, Nat.min_eq_left (Nat.le_of_lt hi),
    Nat.zero_add]
  rfl

theorem natSum_toNat {f : Nat → Int} :
    ∀ l : List Nat, (∀ ch ∈ l, 0 ≤ f ch) →
      (((l.map fun ch => (f ch).toNat).sum : Nat) : Int) = (l.map f).sum
  | [], _ => rfl
  | ch :: rest, h => by
      have h1 := h ch (List.mem_cons_self ch rest)
      have h2 := natSum_toNat rest (fun c hc => h c (List.mem_cons_of_mem ch hc))
      simp only [List.map_cons, List.sum_cons]
      push_cast at h2 ⊢
      omega

theorem pitchN_eq {face : Face} {la : LinearTextAtlas} (hw : Face.wf face)
    (hla : LinearTextAtlas.create face = Option.some (Except.ok la))
    {ch : Nat} (h : ch < 128) :
    pitchN la ch = (glyphAt face ch).pitch.toNat := by
  obtain ⟨_, _, _, _, h5, h6, _⟩ := la_glyph_wf hw hla h
  unfold pitchN
  rw [la_descs_getD hw hla h]
  simp only [descOf]
  exact i32_as_usize_eq h5 (by omega)

theorem xOffN_cast {face : Face} {la : LinearTextAtlas} (hw : Face.wf face)
    (hla : LinearTextAtlas.create face = Option.some (Except.ok la))
    {i : Nat} (hi : i ≤ 128) :
    ((xOffN la i : Nat) : Int) = glyphPitchSum face (List.range i) := by
  unfold xOffN glyphPitchSum
  rw [List.map_congr_left
    (fun ch hch => pitchN_eq hw hla (lt_of_lt_of_le (List.mem_range.mp hch) hi))]
  refine natSum_toNat (List.range i) ?_
  intro ch hch
  exact (la_glyph_wf hw hla (lt_of_lt_of_le (List.mem_range.mp hch) hi)).2.2.2.2.1

theorem xOffN_succ (la : LinearTextAtlas) (i : Nat) :
    xOffN la (i + 1) = xOffN la i + pitchN la i := by
  unfold xOffN
  rw [List.range_succ, List.map_append, List.sum_append]
  simp

theorem xOffN_mono (la : LinearTextAtlas) {i : Nat} :
    ∀ {n : Nat}, i ≤ n → xOffN la i ≤ xOffN la n := by
  intro n
  induction n with
  | zero =>
      intro h
      rw [Nat.le_zero.mp h]
  | succ n ih =>
      intro h
      rcases Nat.lt_or_ge i (n + 1) with h2 | h2
      · refine le_trans (ih (by omega)) ?_
        rw [xOffN_succ]
        omega
      · have : i = n + 1 := by omega
        rw [this]

theorem sum_pitch_eq_xOffN {face : Face} {la : LinearTextAtlas}
    (hw : Face.wf face)
    (hla : LinearTextAtlas.create face = Option.some (Except.ok la)) :
    la.sum_pitch = xOffN la 128 := by
  have h1 := (linear_characterization hw hla).2.2.2.1
  have h2 := xOffN_cast hw hla (le_refl 128)
  omega

theorem la_sum_pitch_le {face : Face} {la : LinearTextAtlas}
    (hw : Face.wf face)
    (hla : LinearTextAtlas.create face = Option.some (Except.ok la)) :
    la.sum_pitch ≤ 4194304 := by
  have h1 := (linear_characterization hw hla).2.2.2.1
  have hsumB : glyphPitchSum face (List.range 128) ≤ 32768 * 128 := by
    have := @glyphPitchSum_le face (List.range 128)
      (fun ch hch =>
        ((linear_characterization hw hla).1 ch hch).2.2.2.2.2.1)
    simpa [List.length_range] using this
  omega

theorem la_max_y_max_le {face : Face} {la : LinearTextAtlas}
    (hw : Face.wf face)
    (hla : LinearTextAtlas.create face = Option.some (Except.ok la)) :
    la.max_y_max ≤ 32768 := by
  have h1 := (linear_characterization hw hla).2.2.2.2.1
  have h2 : ascFold face (List.range 128) 0 ≤ 32768 := by
    simp only [ascFold]
    refine foldlMax_le _ _ (by omega) ?_
    intro ch hch
    exact ((linear_characterization hw hla).1 ch hch).2.2.2.2.2.2.2.1
  omega

theorem la_max_y_min_le {face : Face} {la : LinearTextAtlas}
    (hw : Face.wf face)
    (hla : LinearTextAtlas.create face = Option.some (Except.ok la)) :
    la.max_y_min ≤ 65536 := by
  have h1 := (linear_characterization hw hla).2.2.2.2.2
  have h2 : descFoldPlain face (List.range 128) 0 ≤ 65536 := by
    simp only [descFoldPlain]
    refine foldlMax_le _ _ (by omega) ?_
    intro ch hch
    obtain ⟨a1, a2, _, _, _, _, a7, a8, _⟩ :=
      (linear_characterization hw hla).1 ch hch
    omega
  omega

theorem top_le_max {face : Face} {la : LinearTextAtlas} (hw : Face.wf face)
    (hla : LinearTextAtlas.create face = Option.some (Except.ok la))
    {i : Nat} (hi : i < 128) :
    (glyphAt face i).bitmap_top ≤ (la.max_y_max : Int) := by
  rw [(linear_characterization hw hla).2.2.2.2.1]
  exact le_foldlMax_mem (List.range 128) (List.mem_range.mpr hi) 0

theorem diff_le_max_y_min {face : Face} {la : LinearTextAtlas} (hw : Face.wf face)
    (hla : LinearTextAtlas.create face = Option.some (Except.ok la))
    {i : Nat} (hi : i < 128) :
    (glyphAt face i).rows - (glyphAt face i).bitmap_top ≤ (la.max_y_min : Int) := by
  rw [(linear_characterization hw hla).2.2.2.2.2]
  exact le_foldlMax_mem (List.range 128) (List.mem_range.mpr hi) 0

/-- Top-left corner of glyph `i`'s rect: the running pitch offset and the
exact baseline drop `max_ascent - bearing_y`. -/
theorem rect_tl {face : Face} {la : LinearTextAtlas} (hw : Face.wf face)
    (hla : LinearTextAtlas.create face = Option.some (Except.ok la))
    {i : Nat} (hi : i < 128) :
    ((TextAtlas.create la).rects.getD i default).tl
      = (xOffN la i,
         ((la.max_y_max : Int) - (glyphAt face i).bitmap_top).toNat) := by
  rw [atlas_rects_getD la hi]
  obtain ⟨_, _, _, _, _, _, h7, h8, _⟩ := la_glyph_wf hw hla hi
  have hx128 : xOffN la i ≤ xOffN la 128 := xOffN_mono la (by omega)
  have hxle : xOffN la i ≤ 4194304 := by
    have hs := la_sum_pitch_le hw hla
    rw [sum_pitch_eq_xOffN hw hla] at hs
    omega
  have hmaxle := la_max_y_max_le hw hla
  have htople := top_le_max hw hla hi
  have hzero : usize_as_i32 la.max_y_max = (la.max_y_max : Int) :=
    usize_as_i32_eq (by omega)
  simp only [rectOf, GlyphRect.new]
  rw [la_descs_getD hw hla hi]
  simp only [descOf]
  rw [hzero, usize_as_u32_eq (by omega),
    u32_sub_casts_eq (by omega) (by omega) (by omega) htople]

/-- Bottom-right corner of glyph `i`'s rect, before resolving the
(possibly wrapping) trailing `- 1`. -/
theorem rect_br {face : Face} {la : LinearTextAtlas} (hw : Face.wf face)
    (hla : LinearTextAtlas.create face = Option.some (Except.ok la))
    {i : Nat} (hi : i < 128) :
    ((TextAtlas.create la).rects.getD i default).br
      = (u32_sub (xOffN la i + (glyphAt face i).width.toNat) 1,
         u32_sub (((la.max_y_max : Int) - (glyphAt face i).bitmap_top).toNat
                   + (glyphAt face i).rows.toNat) 1) := by
  rw [atlas_rects_getD la hi]
  obtain ⟨hr0, hr1, hw0, hw1, _, _, h7, h8, _⟩ := la_glyph_wf hw hla hi
  have hx128 : xOffN la i ≤ xOffN la 128 := xOffN_mono la (by omega)
  have hxle : xOffN la i ≤ 4194304 := by
    have hs := la_sum_pitch_le hw hla
    rw [sum_pitch_eq_xOffN hw hla] at hs
    omega
  have hmaxle := la_max_y_max_le hw hla
  have htople := top_le_max hw hla hi
  have hzero : usize_as_i32 la.max_y_max = (la.max_y_max : Int) :=
    usize_as_i32_eq (by omega)
  simp only [rectOf, GlyphRect.new]
  rw [la_descs_getD hw hla hi]
  simp only [descOf]
  rw [hzero, usize_as_u32_eq (by omega),
    u32_sub_casts_eq (by omega) (by omega) (by omega) htople,
    i32_as_u32_eq hw0 (by omega), i32_as_u32_eq hr0 (by omega),
    u32_add_eq (by omega), u32_add_eq (by omega)]

/-! ### The claims -/

/-- C1: atlas packing is contiguous and gapless along x — the first
rect starts at `x = 0` and each next rect's `top_left.x` is the previous
rect's `top_left.x` plus the previous descriptor's `pitch` (not its
width). -/
theorem claim_C1 {face : Face} {la : LinearTextAtlas} (hw : Face.wf face)
    (hla : LinearTextAtlas.create face = Option.some (Except.ok la)) :
    ((TextAtlas.create la).rects.getD 0 default).tl.1 = 0 ∧
    ∀ i : Nat, i + 1 < 128 →
      (((TextAtlas.create la).rects.getD (i + 1) default).tl.1 : Int)
        = (((TextAtlas.create la).rects.getD i default).tl.1 : Int)
          + ((TextAtlas.create la).descriptors.getD i default).pitch := by
  constructor
  · rw [rect_tl hw hla (by omega)]
    simp [xOffN]
  · intro i h
    rw [rect_tl hw hla (by omega : i + 1 < 128),
      rect_tl hw hla (by omega : i < 128)]
    rw [(atlas_fields la).1, la_descs_getD hw hla (by omega : i < 128)]
    simp only [descOf]
    have h0 : 0 ≤ (glyphAt face i).pitch :=
      (la_glyph_wf hw hla (by omega : i < 128)).2.2.2.2.1
    rw [xOffN_succ, pitchN_eq hw hla (by omega : i < 128)]
    push_cast
    omega

/-- C2, as amended: every rect's `top_left.y` equals
`max_ascent - bearing_y` (hence is non-negative), and for glyphs of
height at least 1 the rect spans exactly `height` rows and its
`bottom_right.y` stays below the atlas height.  (As stated the claim
also asserted `bottom_right.y < atlas.height` for zero-height glyphs,
which fails — see the counterexample.) -/
theorem claim_C2_amended {face : Face} {la : LinearTextAtlas} (hw : Face.wf face)
    (hla : LinearTextAtlas.create face = Option.some (Except.ok la))
    {i : Nat} (hi : i < 128) :
    ((((TextAtlas.create la).rects.getD i default).tl.2 : Int)
        = (la.max_y_max : Int)
          - ((TextAtlas.create la).descriptors.getD i default).bearing_y) ∧
    (1 ≤ ((TextAtlas.create la).descriptors.getD i default).h →
      ((((TextAtlas.create la).rects.getD i default).br.2 : Int)
          = (((TextAtlas.create la).rects.getD i default).tl.2 : Int)
            + ((TextAtlas.create la).descriptors.getD i default).h - 1) ∧
      ((TextAtlas.create la).rects.getD i default).br.2
        < (TextAtlas.create la).h) := by
  obtain ⟨hr0, hr1, _, _, _, _, h7, h8, _⟩ := la_glyph_wf hw hla hi
  have htople := top_le_max hw hla hi
  have hmaxle := la_max_y_max_le hw hla
  have hminle := la_max_y_min_le hw hla
  have hdiff := diff_le_max_y_min hw hla hi
  have hdesc : (TextAtlas.create la).descriptors.getD i default
      = descOf face (strideSum face (List.range i)) i := by
    rw [(atlas_fields la).1, la_descs_getD hw hla hi]
  rw [hdesc, rect_tl hw hla hi, rect_br hw hla hi, (atlas_fields la).2.1]
  simp only [descOf]
  refine ⟨by omega, ?_⟩
  intro hh
  have hsub : u32_sub (((la.max_y_max : Int) - (glyphAt face i).bitmap_top).toNat
      + (glyphAt face i).rows.toNat) 1
      = ((la.max_y_max : Int) - (glyphAt face i).bitmap_top).toNat
        + (glyphAt face i).rows.toNat - 1 := by
    refine u32_sub_eq (by omega) (by omega)
  rw [hsub]
  omega

/-- C2, counterexample to the claim as stated: on a face whose 128
glyphs are all empty, the first glyph's rect has
`bottom_right.y = 2^32 - 1` (the `u32` computation `y + 0 - 1` wraps),
which is not below the atlas height. -/
theorem claim_C2_counterexample :
    LinearTextAtlas.create trivialFace = Option.some (Except.ok trivialLa) ∧
    ¬ (((TextAtlas.create trivialLa).rects.getD 0 default).br.2
        < (TextAtlas.create trivialLa).h) := by
  exact ⟨rfl, by decide⟩

/-- C5: every glyph gets a rect relative to its placement
`(x, y) = top_left` with `bottom_right = (x + width - 1, y + height - 1)`,
including zero-size glyphs, whose rects are degenerate (`bottom_right`
one pixel above/left of `top_left`) whenever the subtraction does not
underflow at the atlas origin; construction yields a rect for all 128
codes. -/
theorem claim_C5 {face : Face} {la : LinearTextAtlas} (hw : Face.wf face)
    (hla : LinearTextAtlas.create face = Option.some (Except.ok la)) :
    (TextAtlas.create la).rects.length = 128 ∧
    ∀ i : Nat, i < 128 →
      (1 ≤ (((TextAtlas.create la).rects.getD i default).tl.1 : Int)
            + ((TextAtlas.create la).descriptors.getD i default).w →
        ((((TextAtlas.create la).rects.getD i default).br.1 : Int)
          = (((TextAtlas.create la).rects.getD i default).tl.1 : Int)
            + ((TextAtlas.create la).descriptors.getD i default).w - 1)) ∧
      (1 ≤ (((TextAtlas.create la).rects.getD i default).tl.2 : Int)
            + ((TextAtlas.create la).descriptors.getD i default).h →
        ((((TextAtlas.create la).rects.getD i default).br.2 : Int)
          = (((TextAtlas.create la).rects.getD i default).tl.2 : Int)
            + ((TextAtlas.create la).descriptors.getD i default).h - 1)) := by
  constructor
  · rw [(atlas_fields la).2.2.2.2.1, packRects_length, List.length_range]
  · intro i hi
    obtain ⟨hr0, hr1, hw0, hw1, _, _, h7, h8, _⟩ := la_glyph_wf hw hla hi
    have hx128 : xOffN la i ≤ xOffN la 128 := xOffN_mono la (by omega)
    have hxle : xOffN la i ≤ 4194304 := by
      have hs := la_sum_pitch_le hw hla
      rw [sum_pitch_eq_xOffN hw hla] at hs
      omega
    have htople := top_le_max hw hla hi
    have hmaxle := la_max_y_max_le hw hla
    have hdesc : (TextAtlas.create la).descriptors.getD i default
        = descOf face (strideSum face (List.range i)) i := by
      rw [(atlas_fields la).1, la_descs_getD hw hla hi]
    rw [hdesc, rect_tl hw hla hi, rect_br hw hla hi]
    simp only [descOf]
    constructor
    · intro hcond
      rw [u32_sub_eq (by omega) (by omega)]
      omega
    · intro hcond
      rw [u32_sub_eq (by omega) (by omega)]
      omega

theorem linDescs_map_pitch (face : Face) :
    ∀ (l : List Nat) (s : Nat),
      (linDescs face s l).map (fun d => d.pitch)
        = l.map (fun ch => (glyphAt face ch).pitch)
  | [], _ => rfl
  | ch :: rest, s => by
      simp [linDescs, descOf, linDescs_map_pitch face rest]

/-- C9, counterexample to the claim as stated: after packing, the copied
descriptor of glyph 66 still holds its byte offset in the linear store
(80), not its horizontal pixel offset in the atlas row (8 =
`rect.top_left.x`). -/
theorem claim_C9_counterexample :
    LinearTextAtlas.create exampleFace = Option.some (Except.ok exampleLa) ∧
    ((TextAtlas.create exampleLa).descriptors.getD 66 default).x_start
      ≠ ((TextAtlas.create exampleLa).rects.getD 66 default).tl.1 := by
  exact ⟨rfl, by decide⟩

/-- C9, as amended: `TextAtlas::create` copies the descriptors
unchanged, so each descriptor's `x_start` remains the glyph's byte
offset within the linear store (the sum of `height * pitch` over the
earlier glyphs); the glyph's horizontal pixel offset within the atlas
row is `rect.top_left.x` (the sum of the earlier pitches) instead. -/
theorem claim_C9_amended {face : Face} {la : LinearTextAtlas} (hw : Face.wf face)
    (hla : LinearTextAtlas.create face = Option.some (Except.ok la)) :
    (TextAtlas.create la).descriptors = la.descriptors ∧
    ∀ i : Nat, i < 128 →
      ((TextAtlas.create la).descriptors.getD i default).x_start
        = ((List.range i).map
            (fun j => ((glyphAt face j).rows * (glyphAt face j).pitch).toNat)).sum ∧
      ((((TextAtlas.create la).rects.getD i default).tl.1 : Int)
        = ((List.range i).map (fun j => (glyphAt face j).pitch)).sum) := by
  refine ⟨(atlas_fields la).1, ?_⟩
  intro i hi
  constructor
  · rw [(atlas_fields la).1, la_descs_getD hw hla hi]
    simp only [descOf]
    unfold strideSum
    congr 1
    refine List.map_congr_left ?_
    intro j hj
    exact glyphBytesLen_eq_of_wf
      (la_glyph_wf hw hla (lt_trans (List.mem_range.mp hj) hi))
  · rw [rect_tl hw hla hi]
    exact xOffN_cast hw hla (Nat.le_of_lt hi)

/-- C4: the linear store records, per glyph, an offset equal to the byte
length of the flat buffer before that glyph was appended (the sum of
`height * pitch` over the earlier glyphs); `sum_pitch` is the sum of the
128 pitches, `max_y_max` the running maximum (from 0) of the bearings,
and `max_y_min` the running maximum (from 0) of `height - bearing_y`. -/
theorem claim_C4 {face : Face} {la : LinearTextAtlas} (hw : Face.wf face)
    (hla : LinearTextAtlas.create face = Option.some (Except.ok la)) :
    (∀ i : Nat, i < 128 →
      (la.descriptors.getD i default).x_start
        = (((List.range i).map (fun j => (glyphAt face j).buffer)).flatten).length ∧
      (la.descriptors.getD i default).x_start
        = ((List.range i).map
            (fun j => ((glyphAt face j).rows * (glyphAt face j).pitch).toNat)).sum) ∧
    (la.sum_pitch : Int)
      = ((List.range 128).map (fun j => (glyphAt face j).pitch)).sum ∧
    (la.max_y_max : Int)
      = ((List.range 128).map (fun j => (glyphAt face j).bitmap_top)).foldl max 0 ∧
    (la.max_y_min : Int)
      = ((List.range 128).map
          (fun j => (glyphAt face j).rows - (glyphAt face j).bitmap_top)).foldl max 0 := by
  obtain ⟨hwfall, _, _, hsum, hasc, hdsc⟩ := linear_characterization hw hla
  refine ⟨?_, ?_, ?_, ?_⟩
  · intro i hi
    have hx : (la.descriptors.getD i default).x_start
        = strideSum face (List.range i) := by
      rw [la_descs_getD hw hla hi]
      simp [descOf]
    have hwfi : ∀ j ∈ List.range i, (glyphAt face j).wf := by
      intro j hj
      exact la_glyph_wf hw hla (lt_trans (List.mem_range.mp hj) hi)
    constructor
    · rw [hx, ← bytesFlat_length (List.range i) hwfi]
      rfl
    · rw [hx]
      unfold strideSum
      congr 1
      exact List.map_congr_left (fun j hj => glyphBytesLen_eq_of_wf (hwfi j hj))
  · exact hsum
  · rw [hasc, ascFold, List.foldl_map]
  · rw [hdsc, descFoldPlain, List.foldl_map]

/-- C7: the atlas width in texels is `sum_pitch` divided by the
bytes-per-pixel of the source pixel format (its bit size over 8); when
that byte size is nonzero and divides `sum_pitch`, width times
bytes-per-texel recovers `sum_pitch`, the sum of the 128 descriptor
pitches. -/
theorem claim_C7 {face : Face} {la : LinearTextAtlas} (hw : Face.wf face)
    (hla : LinearTextAtlas.create face = Option.some (Except.ok la))
    (hbpp : la.pixel_mode.get_size / 8 ≠ 0)
    (hdvd : (la.pixel_mode.get_size / 8) ∣ la.sum_pitch) :
    (TextAtlas.create la).w * (la.pixel_mode.get_size / 8) = la.sum_pitch ∧
    (TextAtlas.create la).w = la.sum_pitch / (la.pixel_mode.get_size / 8) ∧
    (la.sum_pitch : Int) = (la.descriptors.map (fun d => d.pitch)).sum := by
  refine ⟨?_, (atlas_fields la).2.2.1, ?_⟩
  · rw [(atlas_fields la).2.2.1]
    exact Nat.div_mul_cancel hdvd
  · rw [(linear_characterization hw hla).2.1, linDescs_map_pitch]
    exact (linear_characterization hw hla).2.2.2.1

/-- C8: the atlas byte buffer has length `width * height`, with the
reported width equal to the byte width for the 1-byte-per-pixel
grayscale source format, and `height = max_ascent + max_descent`. -/
theorem claim_C8 (la : LinearTextAtlas) (hpm : la.pixel_mode = PixelMode.gray) :
    (TextAtlas.create la).bytes.length
        = (TextAtlas.create la).w * (TextAtlas.create la).h ∧
    (TextAtlas.create la).h = la.max_y_max + la.max_y_min := by
  obtain ⟨_, hh, hwidth, _, _, hlen⟩ := atlas_fields la
  refine ⟨?_, hh⟩
  rw [hlen, hwidth, hh, hpm]
  show (la.max_y_max + la.max_y_min) * la.sum_pitch
      = la.sum_pitch / (8 / 8) * (la.max_y_max + la.max_y_min)
  rw [Nat.div_one la.sum_pitch]
  ring

/-- C10: the `Result`-returning constructors never yield an `Err` value:
whenever `FontContainer::new` or `TextMap::generate_from_path` returns
at all (does not panic through an internal `unwrap`), it returns `Ok`. -/
theorem claim_C10 (nf : Except String Face) (tm : TextMap) (font : String)
    (r : Except String FontContainer) (r2 : Except String TextMap) :
    (FontContainer.new nf = Option.some r → ∃ fc, r = Except.ok fc) ∧
    (TextMap.generate_from_path tm font nf = Option.some r2
      → ∃ tm2, r2 = Except.ok tm2) := by
  have hnew : ∀ r' : Except String FontContainer,
      FontContainer.new nf = Option.some r' → ∃ fc, r' = Except.ok fc := by
    intro r' h
    unfold FontContainer.new at h
    split at h
    · cases h
    · split at h
      · cases h
      · cases h
      · cases h
        exact ⟨_, rfl⟩
  refine ⟨hnew r, ?_⟩
  intro h
  unfold TextMap.generate_from_path at h
  split at h
  · cases h
  · rename_i e herr
    obtain ⟨fc, hfc⟩ := hnew _ herr
    cases hfc
  · cases h
    exact ⟨_, rfl⟩

/-! ### C6: the text mesh against the spec's wording -/

theorem specTextVertices_length (atlas : TextAtlas) (py : ℚ) :
    ∀ (l : List Nat) (px : ℚ),
      (specTextVertices atlas py px l).length = 6 * l.length
  | [], _ => rfl
  | ch :: rest, px => by
      simp [specTextVertices, specQuad, specTextVertices_length atlas py rest]
      ring

theorem textVertices_eq_spec {face : Face} {la : LinearTextAtlas}
    (hw : Face.wf face)
    (hla : LinearTextAtlas.create face = Option.some (Except.ok la)) :
    ∀ (src : List Nat) (px py : ℚ), (∀ ch ∈ src, ch < 128) →
      textVertices (TextAtlas.create la) py px src
        = specTextVertices (TextAtlas.create la) py px src := by
  intro src
  induction src with
  | nil => intro px py _; rfl
  | cons ch rest ih =>
      intro px py h
      have hch : ch < 128 := h ch (List.mem_cons_self ch rest)
      have hrest : ∀ c ∈ rest, c < 128 :=
        fun c hc => h c (List.mem_cons_of_mem ch hc)
      obtain ⟨a1, a2, _, _, _, _, a7, a8, _⟩ := la_glyph_wf hw hla hch
      have hdesc : (TextAtlas.create la).descriptors.getD ch default
          = descOf face (strideSum face (List.range ch)) ch := by
        rw [(atlas_fields la).1, la_descs_getD hw hla hch]
      have hwrap : i32_wrap (((TextAtlas.create la).descriptors.getD ch default).h
            - ((TextAtlas.create la).descriptors.getD ch default).bearing_y)
          = ((TextAtlas.create la).descriptors.getD ch default).h
            - ((TextAtlas.create la).descriptors.getD ch default).bearing_y := by
        rw [hdesc]
        simp only [descOf]
        exact i32_wrap_eq (by omega) (by omega)
      simp only [textVertices, specTextVertices, specQuad, hwrap]
      rw [ih _ py hrest]

/-- C6: for a string of in-range character codes, the text mesh is
exactly the spec's mesh — six vertices per character (two triangles, no
index buffer), each character's quad anchored at
`(pen_x + bearing_x, pen_y - (height - bearing_y))` with the glyph's
pixel extent and normalized-rect texture coordinates, and the pen
advanced by `advance >> 6` between characters. -/
theorem claim_C6 {face : Face} {la : LinearTextAtlas} (hw : Face.wf face)
    (hla : LinearTextAtlas.create face = Option.some (Except.ok la))
    (src : List Nat) (coord : ℚ × ℚ) (hsrc : ∀ ch ∈ src, ch < 128) :
    (create_screen_text_mesh (TextAtlas.create la) src coord).vertices
      = specTextVertices (TextAtlas.create la) coord.2 coord.1 src ∧
    (create_screen_text_mesh (TextAtlas.create la) src coord).vertices.length
      = 6 * src.length ∧
    (create_screen_text_mesh (TextAtlas.create la) src coord).indices
      = Option.none := by
  have heq := textVertices_eq_spec hw hla src coord.1 coord.2 hsrc
  refine ⟨heq, ?_, rfl⟩
  show (textVertices (TextAtlas.create la) coord.2 coord.1 src).length = _
  rw [heq, specTextVertices_length]

/-! ### C3: the pixel copy -/

theorem packStep_bytes (la : LinearTextAtlas) (fw : Nat) (z : Int)
    (st : PackState) (ch : Nat) :
    (packStep la fw z st ch).bytes
      = copyGlyph fw (tlYof la z ch) st.x_start (pitchN la ch) (texOf la ch)
          st.bytes 0 (hNof la ch) := rfl

theorem packStep_x (la : LinearTextAtlas) (fw : Nat) (z : Int)
    (st : PackState) (ch : Nat) :
    (packStep la fw z st ch).x_start = st.x_start + pitchN la ch := rfl

theorem copyRow_getD_untouched (src : List Nat) :
    ∀ (n : Nat) (dst : List Nat) (off soff j : Nat),
      (j < off ∨ off + n ≤ j) →
      (copyRow dst off src soff n).getD j 0 = dst.getD j 0
  | 0, _, _, _, _, _ => rfl
  | Nat.succ n, dst, off, soff, j, h => by
      rw [copyRow, copyRow_getD_untouched src n _ _ _ j (by omega)]
      exact getD_set_ne (by omega)

theorem copyRow_getD_in (src : List Nat) :
    ∀ (n : Nat) (dst : List Nat) (off soff k : Nat),
      k < n → off + k < dst.length →
      (copyRow dst off src soff n).getD (off + k) 0 = src.getD (soff + k) 0
  | 0, _, _, _, _, hk, _ => by omega
  | Nat.succ n, dst, off, soff, k, hk, hlen => by
      rw [copyRow]
      cases k with
      | zero =>
          rw [copyRow_getD_untouched src n _ _ _ _ (by omega)]
          simpa using getD_set_self (l := dst) (i := off)
            (v := src.getD soff 0) (by omega)
      | succ k' =>
          have hidx : off + (k' + 1) = (off + 1) + k' := by omega
          rw [hidx, copyRow_getD_in src n (dst.set off (src.getD soff 0))
            (off + 1) (soff + 1) k' (by omega)
            (by rw [List.length_set]; omega)]
          congr 1
          omega

theorem copyGlyph_getD_below (fit_w tl1 x pitchN : Nat) (texture : List Nat) :
    ∀ (count : Nat) (dst : List Nat) (i j : Nat),
      j < (tl1 + i) * fit_w + x →
      (copyGlyph fit_w tl1 x pitchN texture dst i count).getD j 0
        = dst.getD j 0
  | 0, _, _, _, _ => rfl
  | Nat.succ c, dst, i, j, hj => by
      have hmul : (tl1 + i) * fit_w ≤ (tl1 + (i + 1)) * fit_w :=
        Nat.mul_le_mul (by omega) (le_refl fit_w)
      rw [copyGlyph,
        copyGlyph_getD_below fit_w tl1 x pitchN texture c _ (i + 1) j (by omega)]
      exact copyRow_getD_untouched texture pitchN dst _ _ j (Or.inl hj)

theorem copyGlyph_getD_outside_cols (fit_w tl1 x pitchN : Nat)
    (texture : List Nat) (hxp : x + pitchN ≤ fit_w) :
    ∀ (count : Nat) (dst : List Nat) (i j : Nat),
      (j % fit_w < x ∨ x + pitchN ≤ j % fit_w) →
      (copyGlyph fit_w tl1 x pitchN texture dst i count).getD j 0
        = dst.getD j 0
  | 0, _, _, _, _ => rfl
  | Nat.succ c, dst, i, j, hj => by
      rw [copyGlyph,
        copyGlyph_getD_outside_cols fit_w tl1 x pitchN texture hxp c _ (i + 1) j hj]
      refine copyRow_getD_untouched texture pitchN dst _ _ j ?_
      by_contra hcon
      push_neg at hcon
      obtain ⟨h1, h2⟩ := hcon
      have hjeq : j = (x + (j - ((tl1 + i) * fit_w + x))) + (tl1 + i) * fit_w := by
        omega
      have hmod : j % fit_w = x + (j - ((tl1 + i) * fit_w + x)) := by
        calc j % fit_w
            = ((x + (j - ((tl1 + i) * fit_w + x))) + (tl1 + i) * fit_w) % fit_w := by
              rw [← hjeq]
          _ = (x + (j - ((tl1 + i) * fit_w + x))) % fit_w :=
              Nat.add_mul_mod_self_right _ _ _
          _ = x + (j - ((tl1 + i) * fit_w + x)) :=
              Nat.mod_eq_of_lt (by omega)
      omega

theorem copyGlyph_getD_cell (fit_w tl1 x pitchN : Nat) (texture : List Nat)
    (hxp : x + pitchN ≤ fit_w) :
    ∀ (count : Nat) (dst : List Nat) (i row col : Nat),
      i ≤ row → row < i + count → col < pitchN →
      (tl1 + row) * fit_w + x + col < dst.length →
      (copyGlyph fit_w tl1 x pitchN texture dst i count).getD
          ((tl1 + row) * fit_w + x + col) 0
        = texture.getD (pitchN * row + col) 0
  | 0, _, i, row, col, h1, h2, _, _ => by omega
  | Nat.succ c, dst, i, row, col, h1, h2, hcol, hlen => by
      rw [copyGlyph]
      by_cases hri : row = i
      · subst hri
        have hstep : (tl1 + (row + 1)) * fit_w = (tl1 + row) * fit_w + fit_w := by
          ring
        rw [copyGlyph_getD_below fit_w tl1 x pitchN texture c _ (row + 1) _
          (by omega)]
        have := copyRow_getD_in texture pitchN dst ((tl1 + row) * fit_w + x)
          (pitchN * row) col hcol (by omega)
        simpa [Nat.add_assoc] using this
      · exact copyGlyph_getD_cell fit_w tl1 x pitchN texture hxp c _ (i + 1)
          row col (by omega) (by omega) hcol
          (by rw [copyRow_length]; exact hlen)

theorem sumPN_cons (la : LinearTextAtlas) (ch : Nat) (l : List Nat) :
    sumPN la (ch :: l) = pitchN la ch + sumPN la l := by
  simp [sumPN]

/-- Glyphs packed after offset `st.x_start` leave every byte in a column
left of `st.x_start` unchanged. -/
theorem packRun_getD_left (la : LinearTextAtlas) (fw : Nat) (z : Int) :
    ∀ (l : List Nat) (st : PackState) (j : Nat),
      st.x_start + sumPN la l ≤ fw →
      j % fw < st.x_start →
      (packRun la fw z l st).bytes.getD j 0 = st.bytes.getD j 0
  | [], _, _, _, _ => rfl
  | ch :: rest, st, j, hfit, hj => by
      rw [packRun]
      rw [sumPN_cons] at hfit
      rw [packRun_getD_left la fw z rest _ j
        (by rw [packStep_x]; omega)
        (by rw [packStep_x]; omega)]
      rw [packStep_bytes]
      exact copyGlyph_getD_outside_cols fw (tlYof la z ch) st.x_start
        (pitchN la ch) (texOf la ch) (by omega) (hNof la ch) st.bytes 0 j
        (Or.inl hj)

/-- The main cell lemma: after the packing loop, the byte at row
`tlY + row`, column `x_start-of-glyph + col` holds byte
`pitch * row + col` of that glyph's slice of the linear buffer. -/
theorem packRun_cell (la : LinearTextAtlas) (fw : Nat) (z : Int) :
    ∀ (l : List Nat) (st : PackState),
      st.x_start + sumPN la l ≤ fw →
      ∀ k : Nat, k < l.length →
      ∀ row col : Nat,
        row < hNof la (l.getD k 0) → col < pitchN la (l.getD k 0) →
        (tlYof la z (l.getD k 0) + row) * fw
            + (st.x_start + sumPN la (l.take k)) + col < st.bytes.length →
        (packRun la fw z l st).bytes.getD
            ((tlYof la z (l.getD k 0) + row) * fw
              + (st.x_start + sumPN la (l.take k)) + col) 0
          = (texOf la (l.getD k 0)).getD (pitchN la (l.getD k 0) * row + col) 0
  | [], _, _, k, hk, _, _, _, _, _ => by simp at hk
  | ch :: rest, st, hfit, 0, hk, row, col, hrow, hcol, hlen => by
      rw [packRun]
      rw [sumPN_cons] at hfit
      simp only [List.getD_cons_zero, List.take_zero] at hrow hcol hlen ⊢
      have hsumnil : sumPN la ([] : List Nat) = 0 := rfl
      rw [hsumnil] at hlen ⊢
      have hcols : st.x_start + col < fw := by
        have h0 : 0 ≤ sumPN la rest := Nat.zero_le _
        omega
      have hmod : ((tlYof la z ch + row) * fw + (st.x_start + 0) + col) % fw
          = st.x_start + col := by
        calc ((tlYof la z ch + row) * fw + (st.x_start + 0) + col) % fw
            = ((st.x_start + col) + (tlYof la z ch + row) * fw) % fw := by
              congr 1
              ring
          _ = (st.x_start + col) % fw := Nat.add_mul_mod_self_right _ _ _
          _ = st.x_start + col := Nat.mod_eq_of_lt hcols
      rw [packRun_getD_left la fw z rest _ _
        (by rw [packStep_x]; omega)
        (by rw [packStep_x, hmod]; omega)]
      rw [packStep_bytes]
      have := copyGlyph_getD_cell fw (tlYof la z ch) st.x_start (pitchN la ch)
        (texOf la ch) (by omega) (hNof la ch) st.bytes 0 row col
        (Nat.zero_le row) (by omega) hcol (by omega)
      simpa [Nat.add_zero] using this
  | ch :: rest, st, hfit, Nat.succ k, hk, row, col, hrow, hcol, hlen => by
      rw [packRun]
      rw [sumPN_cons] at hfit
      simp only [List.getD_cons_succ, List.take_succ_cons, sumPN_cons]
        at hrow hcol hlen ⊢
      have hlen' : (tlYof la z (rest.getD k 0) + row) * fw
          + ((packStep la fw z st ch).x_start + sumPN la (rest.take k)) + col
          < (packStep la fw z st ch).bytes.length := by
        rw [packStep_x, packStep_bytes, copyGlyph_length]
        omega
      have := packRun_cell la fw z rest (packStep la fw z st ch)
        (by rw [packStep_x]; omega) k (by simpa using hk) row col hrow hcol hlen'
      rw [packStep_x] at this
      simpa [Nat.add_assoc] using this

theorem toNat_mul_of_nonneg {a b : Int} (ha : 0 ≤ a) (hb : 0 ≤ b) :
    (a * b).toNat = a.toNat * b.toNat := by
  have h := Int.toNat_of_nonneg (mul_nonneg ha hb)
  have h2 : ((a.toNat * b.toNat : Nat) : Int) = a * b := by
    push_cast
    rw [Int.toNat_of_nonneg ha, Int.toNat_of_nonneg hb]
  omega

theorem mul_index_lt {a b H W : Nat} (h1 : a < H) (h2 : b < W) :
    a * W + b < H * W := by
  calc a * W + b < a * W + W := by omega
    _ = (a + 1) * W := by ring
    _ ≤ H * W := Nat.mul_le_mul (by omega) (le_refl W)

theorem atlas_bytes_def (la : LinearTextAtlas) :
    (TextAtlas.create la).bytes
      = (packRun la la.sum_pitch (usize_as_i32 la.max_y_max) (List.range 128)
          { rects := [],
            bytes := List.replicate ((la.max_y_max + la.max_y_min) * la.sum_pitch) 0,
            x_start := 0 }).bytes := rfl

theorem tlY_eq {face : Face} {la : LinearTextAtlas} (hw : Face.wf face)
    (hla : LinearTextAtlas.create face = Option.some (Except.ok la))
    {i : Nat} (hi : i < 128) :
    tlYof la (usize_as_i32 la.max_y_max) i
      = ((la.max_y_max : Int) - (glyphAt face i).bitmap_top).toNat := by
  have h := rect_tl hw hla hi
  rw [atlas_rects_getD la hi] at h
  have h2 := congrArg Prod.snd h
  simpa [rectOf, GlyphRect.new, tlYof] using h2

theorem hNof_eq {face : Face} {la : LinearTextAtlas} (hw : Face.wf face)
    (hla : LinearTextAtlas.create face = Option.some (Except.ok la))
    {i : Nat} (hi : i < 128) :
    hNof la i = (glyphAt face i).rows.toNat := by
  obtain ⟨hr0, hr1, _⟩ := la_glyph_wf hw hla hi
  unfold hNof
  rw [la_descs_getD hw hla hi]
  simp only [descOf]
  exact i32_as_usize_eq hr0 (by omega)

theorem texOf_getD {face : Face} {la : LinearTextAtlas} (hw : Face.wf face)
    (hla : LinearTextAtlas.create face = Option.some (Except.ok la))
    {i : Nat} (hi : i < 128) {m : Nat}
    (hm : m < ((glyphAt face i).rows * (glyphAt face i).pitch).toNat) :
    (texOf la i).getD m 0
      = la.bytes.getD (strideSum face (List.range i) + m) 0 := by
  have hwfi := la_glyph_wf hw hla hi
  unfold texOf LinearTextAtlas.get_glyph_texture
  simp only
  rw [la_descs_getD hw hla hi]
  simp only [descOf]
  have hsz : i32_as_usize (i32_wrap ((glyphAt face i).rows * (glyphAt face i).pitch))
      = ((glyphAt face i).rows * (glyphAt face i).pitch).toNat :=
    glyphBytesLen_eq_of_wf hwfi
  rw [hsz, getD_take_of_lt hm, getD_drop]

/-- C3: the per-glyph pixel copy is row-major and verbatim — for glyph
`i` placed at `(x, y) = rect.top_left`, every byte `(row r, column c)`
with `r < height` and `c < pitch` of the glyph's slice of the linear
store reappears in the atlas buffer at
`(y + r) * atlas_byte_width + x + c`. -/
theorem claim_C3 {face : Face} {la : LinearTextAtlas} (hw : Face.wf face)
    (hla : LinearTextAtlas.create face = Option.some (Except.ok la))
    {i r c : Nat} (hi : i < 128)
    (hr : (r : Int) < ((TextAtlas.create la).descriptors.getD i default).h)
    (hc : (c : Int) < ((TextAtlas.create la).descriptors.getD i default).pitch) :
    (TextAtlas.create la).bytes.getD
        ((((TextAtlas.create la).rects.getD i default).tl.2 + r)
            * (TextAtlas.create la).stride
          + ((TextAtlas.create la).rects.getD i default).tl.1 + c) 0
      = la.bytes.getD
          (((TextAtlas.create la).descriptors.getD i default).x_start
            + r * ((TextAtlas.create la).descriptors.getD i default).pitch.toNat
            + c) 0 := by
  obtain ⟨hr0, hr1, hw0, hw1, hp0, hp1, h7, h8, hbuf⟩ := la_glyph_wf hw hla hi
  have hdesc : (TextAtlas.create la).descriptors.getD i default
      = descOf face (strideSum face (List.range i)) i := by
    rw [(atlas_fields la).1, la_descs_getD hw hla hi]
  rw [hdesc] at hr hc
  simp only [descOf] at hr hc
  have hrN : r < (glyphAt face i).rows.toNat := by omega
  have hcN : c < (glyphAt face i).pitch.toNat := by omega
  have hpitchN := pitchN_eq hw hla hi
  have hhN := hNof_eq hw hla hi
  have htlY := tlY_eq hw hla hi
  have htople := top_le_max hw hla hi
  have hdiff := diff_le_max_y_min hw hla hi
  have hmaxle := la_max_y_max_le hw hla
  have hminle := la_max_y_min_le hw hla
  have hfit : sumPN la (List.range 128) = la.sum_pitch := by
    rw [sum_pitch_eq_xOffN hw hla]
    rfl
  have htake : sumPN la ((List.range 128).take i) = xOffN la i := by
    rw [List.take_range, Nat.min_eq_left (Nat.le_of_lt hi)]
    rfl
  have hxnext : xOffN la i + pitchN la i ≤ la.sum_pitch := by
    rw [← xOffN_succ, sum_pitch_eq_xOffN hw hla]
    exact xOffN_mono la (by omega)
  have hrowlt : tlYof la (usize_as_i32 la.max_y_max) i + r
      < la.max_y_max + la.max_y_min := by
    rw [htlY]
    omega
  have hcollt : xOffN la i + c < la.sum_pitch := by
    rw [hpitchN] at hxnext
    omega
  have hkey : (tlYof la (usize_as_i32 la.max_y_max) i + r) * la.sum_pitch
      + (xOffN la i + c) < (la.max_y_max + la.max_y_min) * la.sum_pitch :=
    mul_index_lt hrowlt hcollt
  have hcell := packRun_cell la la.sum_pitch (usize_as_i32 la.max_y_max)
    (List.range 128)
    { rects := [],
      bytes := List.replicate ((la.max_y_max + la.max_y_min) * la.sum_pitch) 0,
      x_start := 0 }
    (by simp only [hfit]; omega) i (by simp [List.length_range]; exact hi) r c
    (by rw [getD_range hi, hhN]; exact hrN)
    (by rw [getD_range hi, hpitchN]; exact hcN)
    (by simp only [getD_range hi, htake, List.length_replicate]
        omega)
  rw [getD_range hi, htake] at hcell
  have htex := texOf_getD hw hla hi
    (m := pitchN la i * r + c)
    (by rw [toNat_mul_of_nonneg hr0 hp0, hpitchN]
        calc (glyphAt face i).pitch.toNat * r + c
            < (glyphAt face i).pitch.toNat * r + (glyphAt face i).pitch.toNat := by
              omega
          _ = (glyphAt face i).pitch.toNat * (r + 1) := by ring
          _ ≤ (glyphAt face i).pitch.toNat * (glyphAt face i).rows.toNat :=
              Nat.mul_le_mul (le_refl _) (by omega)
          _ = (glyphAt face i).rows.toNat * (glyphAt face i).pitch.toNat := by
              ring)
  rw [htex] at hcell
  rw [hdesc, rect_tl hw hla hi, atlas_bytes_def la]
  simp only [descOf]
  have hidx1 : (((la.max_y_max : Int) - (glyphAt face i).bitmap_top).toNat + r)
        * (TextAtlas.create la).stride + xOffN la i + c
      = (tlYof la (usize_as_i32 la.max_y_max) i + r) * la.sum_pitch
        + (0 + xOffN la i) + c := by
    rw [htlY, (atlas_fields la).2.2.2.1]
    omega
  have hidx2 : strideSum face (List.range i) + (pitchN la i * r + c)
      = strideSum face (List.range i)
        + r * (glyphAt face i).pitch.toNat + c := by
    rw [hpitchN]
    ring
  rw [hidx1, ← hidx2, hcell]

/-! ### Witnesses on the concrete faces -/

theorem exampleFace_wf : Face.wf exampleFace := by
  constructor
  · rfl
  · intro ch g hg
    simp only [exampleFace] at hg
    split at hg
    · cases hg
      decide
    · split at hg
      · cases hg
        decide
      · cases hg
        decide

theorem trivialFace_wf : Face.wf trivialFace := by
  constructor
  · rfl
  · intro ch g hg
    cases hg
    decide

theorem exampleLa_spec :
    LinearTextAtlas.create exampleFace = Option.some (Except.ok exampleLa) := by
  rfl

theorem trivialLa_spec :
    LinearTextAtlas.create trivialFace = Option.some (Except.ok trivialLa) := by
  rfl

theorem claim_C1_witness :
    ((TextAtlas.create exampleLa).rects.getD 0 default).tl.1 = 0 ∧
    (((TextAtlas.create exampleLa).rects.getD 66 default).tl.1 : Int)
      = (((TextAtlas.create exampleLa).rects.getD 65 default).tl.1 : Int)
        + ((TextAtlas.create exampleLa).descriptors.getD 65 default).pitch :=
  ⟨(claim_C1 exampleFace_wf exampleLa_spec).1,
   (claim_C1 exampleFace_wf exampleLa_spec).2 65 (by decide)⟩

theorem claim_C2_witness :
    ((((TextAtlas.create exampleLa).rects.getD 65 default).tl.2 : Int)
        = (exampleLa.max_y_max : Int)
          - ((TextAtlas.create exampleLa).descriptors.getD 65 default).bearing_y) ∧
    ((((TextAtlas.create exampleLa).rects.getD 65 default).br.2 : Int)
        = (((TextAtlas.create exampleLa).rects.getD 65 default).tl.2 : Int)
          + ((TextAtlas.create exampleLa).descriptors.getD 65 default).h - 1) ∧
    ((TextAtlas.create exampleLa).rects.getD 65 default).br.2
      < (TextAtlas.create exampleLa).h :=
  ⟨(claim_C2_amended exampleFace_wf exampleLa_spec (by decide)).1,
   ((claim_C2_amended exampleFace_wf exampleLa_spec (by decide)).2 (by decide)).1,
   ((claim_C2_amended exampleFace_wf exampleLa_spec (by decide)).2 (by decide)).2⟩

theorem claim_C3_witness :
    (TextAtlas.create exampleLa).bytes.getD
        ((((TextAtlas.create exampleLa).rects.getD 65 default).tl.2 + 2)
            * (TextAtlas.create exampleLa).stride
          + ((TextAtlas.create exampleLa).rects.getD 65 default).tl.1 + 3) 0
      = exampleLa.bytes.getD
          (((TextAtlas.create exampleLa).descriptors.getD 65 default).x_start
            + 2 * ((TextAtlas.create exampleLa).descriptors.getD 65 default).pitch.toNat
            + 3) 0 :=
  claim_C3 exampleFace_wf exampleLa_spec (by decide) (by decide) (by decide)

theorem claim_C4_witness :
    ((exampleLa.descriptors.getD 66 default).x_start
      = (((List.range 66).map (fun j => (glyphAt exampleFace j).buffer)).flatten).length) ∧
    ((exampleLa.sum_pitch : Int)
      = ((List.range 128).map (fun j => (glyphAt exampleFace j).pitch)).sum) ∧
    ((exampleLa.max_y_max : Int)
      = ((List.range 128).map (fun j => (glyphAt exampleFace j).bitmap_top)).foldl max 0) ∧
    ((exampleLa.max_y_min : Int)
      = ((List.range 128).map
          (fun j => (glyphAt exampleFace j).rows - (glyphAt exampleFace j).bitmap_top)).foldl max 0) :=
  ⟨((claim_C4 exampleFace_wf exampleLa_spec).1 66 (by decide)).1,
   (claim_C4 exampleFace_wf exampleLa_spec).2.1,
   (claim_C4 exampleFace_wf exampleLa_spec).2.2.1,
   (claim_C4 exampleFace_wf exampleLa_spec).2.2.2⟩

theorem claim_C5_witness :
    (TextAtlas.create exampleLa).rects.length = 128 ∧
    ((((TextAtlas.create exampleLa).rects.getD 70 default).br.1 : Int)
        = (((TextAtlas.create exampleLa).rects.getD 70 default).tl.1 : Int)
          + ((TextAtlas.create exampleLa).descriptors.getD 70 default).w - 1) ∧
    ((((TextAtlas.create exampleLa).rects.getD 70 default).br.2 : Int)
        = (((TextAtlas.create exampleLa).rects.getD 70 default).tl.2 : Int)
          + ((TextAtlas.create exampleLa).descriptors.getD 70 default).h - 1) ∧
    (TextAtlas.create exampleLa).rects.getD 70 default
      = GlyphRect.new (14, 8) (13, 7) :=
  ⟨(claim_C5 exampleFace_wf exampleLa_spec).1,
   ((claim_C5 exampleFace_wf exampleLa_spec).2 70 (by decide)).1 (by decide),
   ((claim_C5 exampleFace_wf exampleLa_spec).2 70 (by decide)).2 (by decide),
   by decide⟩

theorem claim_C6_witness :
    ((create_screen_text_mesh (TextAtlas.create exampleLa) [65, 66]
        (0, 0)).vertices
      = specTextVertices (TextAtlas.create exampleLa) 0 0 [65, 66]) ∧
    ((create_screen_text_mesh (TextAtlas.create exampleLa) [65, 66]
        (0, 0)).vertices.length = 2 * 6) ∧
    ((create_screen_text_mesh (TextAtlas.create exampleLa) [65, 66]
        (0, 0)).indices = Option.none) ∧
    i32_shr6 (exampleLa.descriptors.getD 65 default).advance = 10 :=
  ⟨(claim_C6 exampleFace_wf exampleLa_spec [65, 66] (0, 0) (by decide)).1,
   by rw [(claim_C6 exampleFace_wf exampleLa_spec [65, 66] (0, 0) (by decide)).2.1]
      rfl,
   (claim_C6 exampleFace_wf exampleLa_spec [65, 66] (0, 0) (by decide)).2.2,
   by decide⟩

theorem claim_C7_witness :
    (TextAtlas.create exampleLa).w * (exampleLa.pixel_mode.get_size / 8)
        = exampleLa.sum_pitch ∧
    (TextAtlas.create exampleLa).w
        = exampleLa.sum_pitch / (exampleLa.pixel_mode.get_size / 8) ∧
    (exampleLa.sum_pitch : Int)
        = (exampleLa.descriptors.map (fun d => d.pitch)).sum :=
  claim_C7 exampleFace_wf exampleLa_spec (by decide) (by decide)

theorem claim_C8_witness :
    (TextAtlas.create exampleLa).bytes.length
        = (TextAtlas.create exampleLa).w * (TextAtlas.create exampleLa).h ∧
    (TextAtlas.create exampleLa).h
        = exampleLa.max_y_max + exampleLa.max_y_min :=
  claim_C8 exampleLa (by decide)

theorem claim_C9_witness :
    (TextAtlas.create exampleLa).descriptors = exampleLa.descriptors ∧
    ((TextAtlas.create exampleLa).descriptors.getD 66 default).x_start
      = ((List.range 66).map
          (fun j => ((glyphAt exampleFace j).rows * (glyphAt exampleFace j).pitch).toNat)).sum ∧
    ((((TextAtlas.create exampleLa).rects.getD 66 default).tl.1 : Int)
      = ((List.range 66).map (fun j => (glyphAt exampleFace j).pitch)).sum) :=
  ⟨(claim_C9_amended exampleFace_wf exampleLa_spec).1,
   ((claim_C9_amended exampleFace_wf exampleLa_spec).2 66 (by decide)).1,
   ((claim_C9_amended exampleFace_wf exampleLa_spec).2 66 (by decide)).2⟩

theorem claim_C10_witness :
    (∃ fc, exampleNewResult = Except.ok fc) ∧
    (∃ tm2, exampleGenResult = Except.ok tm2) :=
  ⟨(claim_C10 (Except.ok trivialFace) { fonts := [] } "arial"
      exampleNewResult exampleGenResult).1 rfl,
   (claim_C10 (Except.ok trivialFace) { fonts := [] } "arial"
      exampleNewResult exampleGenResult).2 rfl⟩

end TryWgpu
